import Mathlib

set_option maxRecDepth 100000

/-!
Verification of the csv2 record-mapping engine (csv2.go).

The file shallowly embeds the reflection-driven CSV decode/encode engine of
the csv2 package: the per-field conversion switch of Reader.setValue, the
mirror switch of Writer.getStrings, the layout resolution of setLayout, and
the drivers Unmarshal, UnmarshalOne and Marshal.  Go standard-library
collaborators that the engine calls (strconv.ParseInt / FormatInt,
strconv.ParseFloat / FormatFloat, strconv.ParseBool / FormatBool,
time.Parse / time.Format) are embedded as executable Lean functions faithful
to their documented behaviour on the fragment the engine exercises; the
modelling decisions for each are recorded in the corresponding doc comment.
-/

namespace Csv2

/-! ### Decimal digits: shared by the strconv and time models -/

/-- Predicate for an ASCII decimal digit, as Go tests byte ranges. -/
def isDigitC (c : Char) : Bool := 48 ≤ c.toNat && c.toNat ≤ 57

/-- Numeric value of an ASCII digit character. -/
def dval (c : Char) : Nat := c.toNat - 48

/-- ASCII digit character of a value below ten. -/
def digitC (d : Nat) : Char := Char.ofNat (48 + d)

/-- Fuel-driven digit extraction; the fuel always suffices when it exceeds
the number, since dividing by ten strictly shrinks a positive number. -/
def natDigitsAux : Nat → Nat → List Char
  | 0, _ => []
  | fuel + 1, n =>
    if n < 10 then [digitC n] else natDigitsAux fuel (n / 10) ++ [digitC (n % 10)]

/-- Decimal digit list of a natural number, most significant first, as
produced by the integer formatting routines of the Go strconv package. -/
def natDigits (n : Nat) : List Char := natDigitsAux (n + 1) n

/-- Equality on Except values is decidable when it is on both components;
used to evaluate the model on concrete inputs. -/
instance {ε α : Type} [DecidableEq ε] [DecidableEq α] : DecidableEq (Except ε α) := fun a b =>
  match a, b with
  | .ok x, .ok y =>
      if h : x = y then .isTrue (by rw [h]) else .isFalse (by intro hc; injection hc; contradiction)
  | .error x, .error y =>
      if h : x = y then .isTrue (by rw [h]) else .isFalse (by intro hc; injection hc; contradiction)
  | .ok _, .error _ => .isFalse (by intro hc; injection hc)
  | .error _, .ok _ => .isFalse (by intro hc; injection hc)

/-- Value of a digit list under the usual left fold, with accumulator. -/
def digitsValFrom (a : Nat) (cs : List Char) : Nat :=
  cs.foldl (fun x c => x * 10 + dval c) a

/-- Value of a digit list, most significant digit first. -/
def digitsVal (cs : List Char) : Nat := digitsValFrom 0 cs

/-- Left padding with ASCII zeros up to a target width, as the fixed-width
numeric fields of Go formatting produce. -/
def padZeros (k : Nat) (cs : List Char) : List Char :=
  List.replicate (k - cs.length) '0' ++ cs

/-! ### Model of strconv.ParseInt / FormatInt, ParseBool / FormatBool

Errors returned by the engine.  Conversion errors from the Go standard
library (NumError of strconv, ParseError of the time package) carry the
function or layout and the offending literal, but no field index; the errors
the engine itself fabricates with fmt.Errorf embed the field index, which the
constructors below record as a Nat argument. -/

inductive GoError where
  | errNotPointer : GoError
  | errNotSlice : GoError
  | errNotStruct : GoError
  | ioEOF : GoError
  | numError (fn : String) (num : String) (msg : String) : GoError
  | timeParseError (layout : String) (value : String) (msg : String) : GoError
  | fieldCannotBeSet (i : Nat) : GoError
  | unknownStructField (i : Nat) : GoError
  | unsupportedStructField (i : Nat) : GoError
  | unsupportedType (kindName : String) (i : Nat) : GoError
deriving DecidableEq, Repr

/-- Field index named by an engine error, when it names one.  The strconv and
time errors carry no field index at all. -/
def fieldPos : GoError → Option Nat
  | .fieldCannotBeSet i => some i
  | .unknownStructField i => some i
  | .unsupportedStructField i => some i
  | .unsupportedType _ i => some i
  | _ => none

/-- Digit-run stage of the ParseInt model: a nonempty run of decimal digits
with the already-consumed sign; out-of-range magnitudes give the range error
(Go also returns a clamped value there, but setValue only consults the
error). -/
def parseIntDigits (s : String) (neg : Bool) (ds : List Char) : Except GoError Int :=
  match ds with
  | [] => .error (GoError.numError ("ParseInt") s ("invalid syntax"))
  | _ :: _ =>
    if ds.all isDigitC = true then
      if neg = true then
        if 2 ^ 63 < digitsVal ds then .error (GoError.numError ("ParseInt") s ("value out of range"))
        else .ok (-(digitsVal ds : Int))
      else
        if 2 ^ 63 ≤ digitsVal ds then .error (GoError.numError ("ParseInt") s ("value out of range"))
        else .ok ((digitsVal ds : Int))
    else .error (GoError.numError ("ParseInt") s ("invalid syntax"))

/-- Model of strconv.ParseInt with base 10 and bit size 64: an optional sign
followed by a nonempty run of decimal digits.  Underscore digit separators
are rejected since the base is given explicitly, matching Go. -/
def parseInt64 (s : String) : Except GoError Int :=
  match s.data with
  | [] => .error (GoError.numError ("ParseInt") s ("invalid syntax"))
  | c :: cs =>
    if c = '-' then parseIntDigits s true cs
    else if c = '+' then parseIntDigits s false cs
    else parseIntDigits s false (c :: cs)

/-- Model of strconv.FormatInt with base 10: minus sign for negatives, then
the decimal digits of the magnitude. -/
def formatInt64 (v : Int) : String :=
  if v < 0 then String.mk ('-' :: natDigits v.natAbs)
  else String.mk (natDigits v.natAbs)

/-- Values representable in a Go int64. -/
def Int64Ok (v : Int) : Prop := -(2 ^ 63) ≤ v ∧ v < 2 ^ 63

instance (v : Int) : Decidable (Int64Ok v) := by
  unfold Int64Ok
  infer_instance

/-- Model of strconv.ParseBool, accepting exactly the literals Go accepts. -/
def parseBool (s : String) : Except GoError Bool :=
  if s = "1" ∨ s = "t" ∨ s = "T" ∨ s = "true" ∨ s = "TRUE" ∨ s = "True" then .ok true
  else if s = "0" ∨ s = "f" ∨ s = "F" ∨ s = "false" ∨ s = "FALSE" ∨ s = "False" then .ok false
  else .error (.numError ("ParseBool") s ("invalid syntax"))

/-- Model of strconv.FormatBool. -/
def formatBool (b : Bool) : String :=
  if b then ("true") else ("false")

/-! ### Model of strconv.ParseFloat / FormatFloat with bit size 64

The engine formats with FormatFloat(v, 'f', -1, 64), the shortest plain
decimal literal that ParseFloat maps back to v exactly, and parses with
ParseFloat(s, 64).  Every finite float64 value is a dyadic rational, so its
value has an exact finite decimal expansion; the model represents the value
domain as the rationals and pairs an exact decimal formatter with an exact
decimal parser, which preserves the parse-after-format identity the engine
relies on while abstracting the binary64 shortest-digit selection and the
rounding of literals that name no representable value.  Exotic ParseFloat
inputs (exponent and hexadecimal forms, infinities, NaN, underscores) are
outside the model and treated as syntax errors; signed zero does not exist
in the rationals. -/

/-- Leading digit run of a character list, with the remainder: the span the
ParseFloat model uses for the integer and fraction parts. -/
def splitDigits : List Char → List Char × List Char
  | [] => ([], [])
  | c :: cs =>
    if isDigitC c = true then
      let p := splitDigits cs
      (c :: p.1, p.2)
    else ([], c :: cs)

/-- Digit stage of the ParseFloat model: integer digits, an optional point
with fraction digits, at least one digit in total, nothing left over. -/
def parseFloatDigits (s : String) (neg : Bool) (ds : List Char) : Except GoError ℚ :=
  let esyn := GoError.numError ("ParseFloat") s ("invalid syntax")
  let p1 := splitDigits ds
  match p1.2 with
  | [] =>
    if p1.1 = [] then .error esyn
    else
      let v : ℚ := (digitsVal p1.1 : ℚ)
      .ok (if neg = true then -v else v)
  | c :: r2 =>
    if c = '.' then
      let p2 := splitDigits r2
      if p2.2 = [] then
        if p1.1 = [] ∧ p2.1 = [] then .error esyn
        else
          let v : ℚ := (digitsVal (p1.1 ++ p2.1) : ℚ) / (10 : ℚ) ^ p2.1.length
          .ok (if neg = true then -v else v)
      else .error esyn
    else .error esyn

/-- Model of strconv.ParseFloat on plain decimal literals: an optional sign,
then digits with an optional decimal point. -/
def parseFloat64 (s : String) : Except GoError ℚ :=
  match s.data with
  | [] => .error (GoError.numError ("ParseFloat") s ("invalid syntax"))
  | c :: cs =>
    if c = '-' then parseFloatDigits s true cs
    else if c = '+' then parseFloatDigits s false cs
    else parseFloatDigits s false (c :: cs)

/-- Least decimal exponent clearing the denominator, searched within the
range a float64 denominator can need (2 to the 1074 divides 10 to the 1074). -/
def findExp (d : Nat) : Nat :=
  (((List.range 1101).find? fun k => 10 ^ k % d = 0).getD 0)

/-- Model of strconv.FormatFloat with format 'f' and precision -1: minus sign
for negatives (a negative numerator), integer digits, and the exact fraction
digits when the value is not an integer. -/
def formatFloat64 (q : ℚ) : String :=
  let k := findExp q.den
  let D := q.num.natAbs * (10 ^ k / q.den)
  let body : List Char :=
    if k = 0 then natDigits D
    else natDigits (D / 10 ^ k) ++ '.' :: padZeros k (natDigits (D % 10 ^ k))
  if q.num < 0 then String.mk ('-' :: body) else String.mk body

/-- Rationals whose denominator divides a power of ten within the float64
range: the values the decimal formatter is defined on, covering every finite
float64 value. -/
def FloatOk (q : ℚ) : Prop := ∃ k, k ≤ 1100 ∧ q.den ∣ 10 ^ k

/-! ### Model of time.Parse / time.Format

The engine hands time.Parse and time.Format a layout string: the field's csv
tag when present, else time.RFC3339.  Go's layout machinery scans the layout
for reference-time chunks; the model implements the scanner and the chunk
semantics for the chunks the engine's layouts exercise: 2006, 01, 02, 15,
04, 05, Jan, _2 and Z07:00, every other character being a literal (Go knows
further chunks; layouts confined to the supported ones behave identically).
A time value is modelled as its broken-down wall-clock fields plus the zone
offset in minutes; monotonic readings, named locations, fractional seconds
and the nanosecond field are outside the model.  Literal spaces match runs
of spaces on parsing exactly as Go's skip/cutspace do, the _2 chunk formats
single-digit days with a leading space and skips one leading space when
parsing, parsed months are matched case-insensitively against the month-name
table, a missing zone chunk leaves the UTC default, and the parsed result is
range-checked (month, day against the month length, hour, minute, second)
in Go's order. -/

structure GoTime where
  year : Int
  month : Nat
  day : Nat
  hour : Nat
  minute : Nat
  second : Nat
  offsetMin : Int
deriving DecidableEq, Repr

/-- Zero value of Go time.Time: January 1, year 1, 00:00:00 UTC. -/
def zeroTime : GoTime := ⟨1, 1, 1, 0, 0, 0, 0⟩

/-- Default layout the engine falls back to: time.RFC3339. -/
def rfc3339 : String := "2006-01-02T15:04:05Z07:00"

def shortMonthNames : List String :=
  ["Jan", "Feb", "Mar", "Apr", "May", "Jun", "Jul", "Aug", "Sep", "Oct", "Nov", "Dec"]

/-- Reference-time chunks of a layout string that the model supports. -/
inductive Chunk where
  | lit (c : Char) : Chunk
  | longYear : Chunk
  | zeroMonth : Chunk
  | zeroDay : Chunk
  | hourOfDay : Chunk
  | zeroMinute : Chunk
  | zeroSecond : Chunk
  | monthName : Chunk
  | underDay : Chunk
  | isoColonTZ : Chunk
deriving DecidableEq, Repr

/-- Layout scanner: the nextStdChunk loop of the Go time package, restricted
to the supported chunks; unrecognized characters are literals. -/
def scanLayout : List Char → List Chunk
  | '2' :: '0' :: '0' :: '6' :: rest => .longYear :: scanLayout rest
  | '0' :: '1' :: rest => .zeroMonth :: scanLayout rest
  | '0' :: '2' :: rest => .zeroDay :: scanLayout rest
  | '1' :: '5' :: rest => .hourOfDay :: scanLayout rest
  | '0' :: '4' :: rest => .zeroMinute :: scanLayout rest
  | '0' :: '5' :: rest => .zeroSecond :: scanLayout rest
  | 'J' :: 'a' :: 'n' :: rest => .monthName :: scanLayout rest
  | '_' :: '2' :: rest => .underDay :: scanLayout rest
  | 'Z' :: '0' :: '7' :: ':' :: '0' :: '0' :: rest => .isoColonTZ :: scanLayout rest
  | c :: rest => .lit c :: scanLayout rest
  | [] => []

def pad2 (n : Nat) : List Char := padZeros 2 (natDigits n)

def pad4 (n : Nat) : List Char := padZeros 4 (natDigits n)

def monthName3 (m : Nat) : List Char := (shortMonthNames.getD (m - 1) ("???")).data

/-- Zone rendering of the Z07:00 chunk: the literal Z for UTC, else a signed
hour-minute offset. -/
def formatZone (off : Int) : List Char :=
  if off = 0 then [ 'Z' ]
  else (if off < 0 then '-' else '+') :: (pad2 (off.natAbs / 60) ++ ':' :: pad2 (off.natAbs % 60))

def formatChunk (t : GoTime) : Chunk → List Char
  | .lit c => [c]
  | .longYear => if t.year < 0 then '-' :: pad4 t.year.natAbs else pad4 t.year.toNat
  | .zeroMonth => pad2 t.month
  | .zeroDay => pad2 t.day
  | .hourOfDay => pad2 t.hour
  | .zeroMinute => pad2 t.minute
  | .zeroSecond => pad2 t.second
  | .monthName => monthName3 t.month
  | .underDay => if t.day < 10 then ' ' :: natDigits t.day else natDigits t.day
  | .isoColonTZ => formatZone t.offsetMin

/-- Model of time.Format for a layout within the supported chunk set. -/
def formatTime (layout : String) (t : GoTime) : String :=
  String.mk (((scanLayout layout.data).map (formatChunk t)).flatten)

/-- Space trimming used by literal matching in the parser, as the cutspace
helper of the Go time package. -/
def cutspace : List Char → List Char
  | ' ' :: cs => cutspace cs
  | cs => cs

/-- Literal matching of one layout character: a space matches a run of
spaces (or an exhausted value), any other character must match exactly. -/
def skipLit (c : Char) (v : List Char) : Except String (List Char) :=
  if c = ' ' then
    match v with
    | [] => .ok []
    | d :: ds => if d = ' ' then .ok (cutspace (d :: ds)) else .error ("bad value for field")
  else
    match v with
    | [] => .error ("bad value for field")
    | d :: ds => if d = c then .ok ds else .error ("bad value for field")

/-- Numeric field scanner of the Go time package: one digit, or two when the
second character is a digit; fixed-width chunks insist on two. -/
def getnum (fixed : Bool) (v : List Char) : Except String (Nat × List Char) :=
  match v with
  | [] => .error ("bad value for field")
  | [c1] =>
    if isDigitC c1 = true then
      if fixed = true then .error ("bad value for field") else .ok (dval c1, [])
    else .error ("bad value for field")
  | c1 :: c2 :: rest =>
    if isDigitC c1 = true then
      if isDigitC c2 = true then .ok (dval c1 * 10 + dval c2, rest)
      else if fixed = true then .error ("bad value for field")
      else .ok (dval c1, c2 :: rest)
    else .error ("bad value for field")

/-- Four-digit year scanner of the Go time package. -/
def getnum4 (v : List Char) : Except String (Nat × List Char) :=
  if 4 ≤ v.length ∧ (v.take 4).all isDigitC = true then .ok (digitsVal (v.take 4), v.drop 4)
  else .error ("bad value for field")

/-- ASCII lower casing, for the case-insensitive name matching of the Go
time package lookup. -/
def lowerC (c : Char) : Char :=
  if 65 ≤ c.toNat ∧ c.toNat ≤ 90 then Char.ofNat (c.toNat + 32) else c

def matchPrefixCI : List Char → List Char → Option (List Char)
  | [], v => some v
  | _ :: _, [] => none
  | p :: ps, c :: cs => if lowerC p = lowerC c then matchPrefixCI ps cs else none

def lookupMonthAux : List String → Nat → List Char → Except String (Nat × List Char)
  | [], _, _ => .error ("bad value for field")
  | n :: rest, idx, v =>
    match matchPrefixCI n.data v with
    | some r => .ok (idx + 1, r)
    | none => lookupMonthAux rest (idx + 1) v

/-- Month-name matching: the first table entry whose name is a
case-insensitive prefix of the value, one-based. -/
def lookupMonth (v : List Char) : Except String (Nat × List Char) :=
  lookupMonthAux shortMonthNames 0 v

/-- Parsing semantics of one chunk, threading the partially assembled
broken-down time. -/
def parseChunk (st : GoTime) (v : List Char) : Chunk → Except String (GoTime × List Char)
  | .lit c =>
    match skipLit c v with
    | .ok r => .ok (st, r)
    | .error e => .error e
  | .longYear =>
    match getnum4 v with
    | .ok (y, r) => .ok ({ st with year := (y : Int) }, r)
    | .error e => .error e
  | .zeroMonth =>
    match getnum true v with
    | .ok (m, r) => .ok ({ st with month := m }, r)
    | .error e => .error e
  | .zeroDay =>
    match getnum true v with
    | .ok (d, r) => .ok ({ st with day := d }, r)
    | .error e => .error e
  | .hourOfDay =>
    match getnum false v with
    | .ok (h, r) => .ok ({ st with hour := h }, r)
    | .error e => .error e
  | .zeroMinute =>
    match getnum true v with
    | .ok (m, r) => .ok ({ st with minute := m }, r)
    | .error e => .error e
  | .zeroSecond =>
    match getnum true v with
    | .ok (s, r) => .ok ({ st with second := s }, r)
    | .error e => .error e
  | .monthName =>
    match lookupMonth v with
    | .ok (m, r) => .ok ({ st with month := m }, r)
    | .error e => .error e
  | .underDay =>
    let v2 := match v with
      | ' ' :: rest => rest
      | w => w
    match getnum false v2 with
    | .ok (d, r) => .ok ({ st with day := d }, r)
    | .error e => .error e
  | .isoColonTZ =>
    match v with
    | [] => .error ("bad value for field")
    | c :: r =>
      if c = 'Z' then .ok ({ st with offsetMin := 0 }, r)
      else
        match r with
        | h1 :: h2 :: c2 :: m1 :: m2 :: r2 =>
          if (c = '+' ∨ c = '-') ∧ c2 = ':' ∧ isDigitC h1 = true ∧ isDigitC h2 = true
              ∧ isDigitC m1 = true ∧ isDigitC m2 = true then
            .ok ({ st with offsetMin :=
              if c = '-' then -((((dval h1 * 10 + dval h2) * 60 + (dval m1 * 10 + dval m2)) : Nat) : Int)
              else ((((dval h1 * 10 + dval h2) * 60 + (dval m1 * 10 + dval m2)) : Nat) : Int) }, r2)
          else .error ("bad value for field")
        | _ => .error ("bad value for field")

def parseChunks (st : GoTime) (v : List Char) : List Chunk → Except String (GoTime × List Char)
  | [] => .ok (st, v)
  | ch :: chs =>
    match parseChunk st v ch with
    | .ok (st2, v2) => parseChunks st2 v2 chs
    | .error e => .error e

/-- Leap-year rule of the Gregorian calendar, as the Go time package. -/
def isLeap (y : Int) : Bool := y % 4 = 0 ∧ (y % 100 ≠ 0 ∨ y % 400 = 0)

/-- Days in a month, as daysIn of the Go time package. -/
def daysIn (m : Nat) (y : Int) : Nat :=
  if m = 2 then (if isLeap y then 29 else 28)
  else if m = 4 ∨ m = 6 ∨ m = 9 ∨ m = 11 then 30
  else 31

/-- Model of time.Parse: scan the layout, consume the value chunk by chunk
starting from the documented defaults (year 0, January 1, midnight, UTC),
reject leftover text, then range-check the components in Go's order. -/
def parseTime (layout value : String) : Except GoError GoTime :=
  match parseChunks ⟨0, 1, 1, 0, 0, 0, 0⟩ value.data (scanLayout layout.data) with
  | .error m => .error (.timeParseError layout value m)
  | .ok (st, rest) =>
    if rest ≠ [] then .error (.timeParseError layout value ("extra text"))
    else if st.month < 1 ∨ 12 < st.month then
      .error (.timeParseError layout value ("month out of range"))
    else if st.day < 1 ∨ daysIn st.month st.year < st.day then
      .error (.timeParseError layout value ("day out of range"))
    else if 24 ≤ st.hour then .error (.timeParseError layout value ("hour out of range"))
    else if 60 ≤ st.minute then .error (.timeParseError layout value ("minute out of range"))
    else if 60 ≤ st.second then .error (.timeParseError layout value ("second out of range"))
    else .ok st

/-- Times the RFC3339 layout represents exactly: four-digit year, calendar
day within the month, wall clock in range, offset under a day. -/
def TimeOk (t : GoTime) : Prop :=
  0 ≤ t.year ∧ t.year ≤ 9999 ∧ 1 ≤ t.month ∧ t.month ≤ 12
    ∧ 1 ≤ t.day ∧ t.day ≤ daysIn t.month t.year
    ∧ t.hour ≤ 23 ∧ t.minute ≤ 59 ∧ t.second ≤ 59
    ∧ -(24 * 60) < t.offsetMin ∧ t.offsetMin < 24 * 60

instance (t : GoTime) : Decidable (TimeOk t) := by
  unfold TimeOk
  infer_instance

/-! ### The csv2 engine: setLayout, setValue, getStrings and the drivers

The reflect-level view.  A destination struct type is a list of field
descriptors, each a reflect kind together with its csv tag; a struct value is
the list of its field values, whose reflect kinds are those of the type.
Fields of the model are always exported and settable, so the CanSet guard of
setValue never fires.  The kinds the engine's switch distinguishes are
string, int64, float64, bool, a struct (time.Time or any other, the latter
named), and every remaining kind by name; a field may also be a pointer to
one of these, the nullable representation documented in the repository's
README and exercised by its tests. -/

inductive BKind where
  | str : BKind
  | i64 : BKind
  | f64 : BKind
  | bool : BKind
  | time : BKind
  | otherStruct (name : String) : BKind
  | otherKind (name : String) : BKind
deriving DecidableEq, Repr

inductive FKind where
  | plain (b : BKind) : FKind
  | ptrTo (b : BKind) : FKind
deriving DecidableEq, Repr

structure FieldTy where
  kind : FKind
  tag : String
deriving DecidableEq, Repr

/-- Record Type Descriptor: the ordered field descriptors of a struct type. -/
abbrev RecTy := List FieldTy

/-- Value of one base (non-pointer) field. -/
inductive BVal where
  | vstr (s : String) : BVal
  | vint (n : Int) : BVal
  | vfloat (q : ℚ) : BVal
  | vbool (b : Bool) : BVal
  | vtime (t : GoTime) : BVal
  | vother (isStruct : Bool) (kindName : String) : BVal
deriving DecidableEq, Repr

/-- Value of one field: a base value, or a nullable (pointer) field that is
absent or holds a present base value. -/
inductive FVal where
  | base (v : BVal) : FVal
  | ptr (o : Option BVal) : FVal
deriving DecidableEq, Repr

/-- Record instance: the field values of one struct value. -/
abbrev Rec := List FVal

/-- Zero base value of each kind, as a freshly allocated Go struct field. -/
def zeroBase : BKind → BVal
  | .str => .vstr ""
  | .i64 => .vint 0
  | .f64 => .vfloat 0
  | .bool => .vbool false
  | .time => .vtime zeroTime
  | .otherStruct n => .vother true n
  | .otherKind n => .vother false n

def zeroVal : FKind → FVal
  | .plain b => .base (zeroBase b)
  | .ptrTo _ => .ptr none

/-- Fresh zeroed record of a type, as reflect.New allocates. -/
def zeroRec (ty : RecTy) : Rec := ty.map (fun f => zeroVal f.kind)

/-- Layout resolution of setLayout: the csv tag at each field position.  The
Go code stores only nonempty tags in a map whose absent entries read as the
empty string, so the resulting lookup function is the tag itself with the
empty string past the end. -/
def setLayout (ty : RecTy) (i : Nat) : String :=
  ((ty.get? i).map FieldTy.tag).getD ""

/-- Outcome of an engine call: normal return, a returned error, or a runtime
fault (a reflect or bounds panic). -/
inductive GoRes where
  | okR : GoRes
  | errR (e : GoError) : GoRes
  | faultR (msg : String) : GoRes
deriving DecidableEq, Repr

/-- Conversion switch of setValue for one base-kind field: the token is kept
verbatim for string fields, parsed for int64, float64, bool and time.Time
fields (the time layout being the field's tag when nonempty, else RFC3339),
and any other kind is the corresponding fmt.Errorf error naming the field. -/
def convertBase (i : Nat) (layoutStr : String) (b : BKind) (tok : String) :
    Except GoError BVal :=
  match b with
  | .str => .ok (.vstr tok)
  | .i64 => (parseInt64 tok).map BVal.vint
  | .f64 => (parseFloat64 tok).map BVal.vfloat
  | .bool => (parseBool tok).map BVal.vbool
  | .time => (parseTime (if layoutStr = "" then rfc3339 else layoutStr) tok).map BVal.vtime
  | .otherStruct _ => .error (.unknownStructField i)
  | .otherKind name => .error (.unsupportedType name i)

/-- Modelled from the spec: the nullable (pointer-typed) field branch of
setValue, which is part of the repository (its README documents the pointer
kinds and its tests decode them) but absent from the provided source: an
empty token sets the field to absent with no conversion attempted and no
error; a non-empty token is converted by the wrapped kind's rule and on
success the field holds the present value. -/
def convertPtr (i : Nat) (layoutStr : String) (b : BKind) (tok : String) :
    Except GoError FVal :=
  if tok = "" then .ok (.ptr none)
  else (convertBase i layoutStr b tok).map (fun v => .ptr (some v))

/-- Per-field conversion of setValue, dispatching on the field's kind. -/
def convertField (i : Nat) (layoutStr : String) (k : FKind) (tok : String) :
    Except GoError FVal :=
  match k with
  | .plain b => (convertBase i layoutStr b tok).map FVal.base
  | .ptrTo b => convertPtr i layoutStr b tok

/-- The switch cases of setValue that return before evaluating the token
expression values[i]: the unknown-struct and unsupported-kind cases build
their fmt.Errorf error from the field alone, so against a row too short
for such a field the loop still returns the type error, never reaching the
index panic.  Every other case — the supported plain kinds, and the pointer
kinds whose branch first tests the token for emptiness — evaluates
values[i], and yields none here. -/
def noTokenError (i : Nat) : FKind → Option GoError
  | .plain (.otherStruct _) => some (.unknownStructField i)
  | .plain (.otherKind name) => some (.unsupportedType name i)
  | _ => none

/-- Field loop of Reader.setValue from position i on: each field first
dispatches on its reflect kind — the unknown-struct and unsupported-kind
cases return their error without touching the row — and every other case
evaluates values[i] (faulting on a short row exactly where the Go slice
expression panics), converts the token, stores the result in place, and
returns the first conversion error at once. -/
def setValueFrom (layout : Nat → String) (values : List String) :
    List FieldTy → Nat → Rec → Rec × GoRes
  | [], _, rec => (rec, .okR)
  | fld :: rest, i, rec =>
    match noTokenError i fld.kind with
    | some e => (rec, .errR e)
    | none =>
      match values.get? i with
      | none => (rec, .faultR ("runtime error: index out of range"))
      | some tok =>
        match convertField i (layout i) fld.kind tok with
        | .error e => (rec, .errR e)
        | .ok v => setValueFrom layout values rest (i + 1) (rec.set i v)

/-- Reader.setValue: decode one row into the given record in place. -/
def setValue (layout : Nat → String) (values : List String) (ty : RecTy) (rec : Rec) :
    Rec × GoRes :=
  setValueFrom layout values ty 0 rec

/-- Formatting switch of getStrings for one base value, mirroring
convertBase; the layout selection for time.Time fields is identical to the
decoder's. -/
def encodeBase (i : Nat) (layoutStr : String) : BVal → Except GoError String
  | .vstr s => .ok s
  | .vint n => .ok (formatInt64 n)
  | .vfloat q => .ok (formatFloat64 q)
  | .vbool b => .ok (formatBool b)
  | .vtime t => .ok (formatTime (if layoutStr = "" then rfc3339 else layoutStr) t)
  | .vother true _ => .error (.unsupportedStructField i)
  | .vother false name => .error (.unsupportedType name i)

/-- Modelled from the spec: the nullable (pointer-typed) field branch of
getStrings, likewise absent from the provided source: an absent field emits
an empty token, a present one emits the wrapped kind's formatted text. -/
def encodePtrVal (i : Nat) (layoutStr : String) : Option BVal → Except GoError String
  | none => .ok ""
  | some w => encodeBase i layoutStr w

/-- Per-field formatting of getStrings, dispatching on the reflect kind of
the field value. -/
def encodeVal (i : Nat) (layoutStr : String) : FVal → Except GoError String
  | .base v => encodeBase i layoutStr v
  | .ptr o => encodePtrVal i layoutStr o

/-- Field loop of Writer.getStrings from position i on: the output slice is
preallocated with empty strings, entries are filled in order, and the first
error returns at once with the remaining entries still empty. -/
def getStringsFrom (layout : Nat → String) : List FVal → Nat → List String × Option GoError
  | [], _ => ([], none)
  | v :: rest, i =>
    match encodeVal i (layout i) v with
    | .error e => (List.replicate (v :: rest).length "", some e)
    | .ok s =>
      let p := getStringsFrom layout rest (i + 1)
      (s :: p.1, p.2)

/-- Writer.getStrings: encode one record into a row of tokens. -/
def getStrings (layout : Nat → String) (rec : Rec) : List String × Option GoError :=
  getStringsFrom layout rec 0

/-- Reflect-level shape of the interface argument handed to the drivers,
one constructor per class the kind tests distinguish: a non-pointer, a
pointer to a struct, a pointer to a slice of structs, a pointer to a slice
of pointers to structs, a pointer to a slice of non-struct elements, and a
pointer to any other non-slice value. -/
inductive GoArg where
  | nonPtr (desc : String) : GoArg
  | ptrToStruct (ty : RecTy) (r : Rec) : GoArg
  | ptrToSlice (ty : RecTy) (elems : List Rec) : GoArg
  | ptrToPtrSlice (ty : RecTy) (elems : List Rec) : GoArg
  | ptrToSliceOfOther (elemKindName : String) : GoArg
  | ptrToOther (desc : String) : GoArg
deriving DecidableEq, Repr

/-- Row loop of Reader.Unmarshal: pull rows in order until end of input,
decode each into a fresh zeroed record, and append it to the slice; a failed
row stops the loop with the slice as accumulated so far and the failed
record discarded. -/
def unmarshalRows (layout : Nat → String) (ty : RecTy) :
    List (List String) → List Rec → List Rec × GoRes
  | [], slice => (slice, .okR)
  | row :: rest, slice =>
    match setValue layout row ty (zeroRec ty) with
    | (r, .okR) => unmarshalRows layout ty rest (slice ++ [r])
    | (_, .errR e) => (slice, .errR e)
    | (_, .faultR m) => (slice, .faultR m)

/-- Reader.Unmarshal: validate that the destination is a pointer to a slice
of structs (ErrNotPointer, then ErrNotSlice for a non-slice referent or a
non-struct element type, including a pointer element type), resolve the
layout from the element type, then run the row loop.  The returned GoArg is
the destination as the caller observes it afterwards. -/
def Unmarshal (rows : List (List String)) (arg : GoArg) : GoArg × GoRes :=
  match arg with
  | .nonPtr d => (.nonPtr d, .errR .errNotPointer)
  | .ptrToStruct ty r => (.ptrToStruct ty r, .errR .errNotSlice)
  | .ptrToOther d => (.ptrToOther d, .errR .errNotSlice)
  | .ptrToSliceOfOther n => (.ptrToSliceOfOther n, .errR .errNotSlice)
  | .ptrToPtrSlice ty es => (.ptrToPtrSlice ty es, .errR .errNotSlice)
  | .ptrToSlice ty es =>
    let p := unmarshalRows (setLayout ty) ty rows es
    (.ptrToSlice ty p.1, p.2)

/-- Reader.UnmarshalOne: validate that the destination is a pointer to a
struct (ErrNotPointer, then ErrNotStruct), pull exactly one row (an
exhausted reader surfaces io.EOF verbatim), resolve the layout, and decode
the row into the destination in place. -/
def UnmarshalOne (rows : List (List String)) (arg : GoArg) : GoArg × GoRes :=
  match arg with
  | .nonPtr d => (.nonPtr d, .errR .errNotPointer)
  | .ptrToOther d => (.ptrToOther d, .errR .errNotStruct)
  | .ptrToSlice ty es => (.ptrToSlice ty es, .errR .errNotStruct)
  | .ptrToPtrSlice ty es => (.ptrToPtrSlice ty es, .errR .errNotStruct)
  | .ptrToSliceOfOther n => (.ptrToSliceOfOther n, .errR .errNotStruct)
  | .ptrToStruct ty r =>
    match rows with
    | [] => (.ptrToStruct ty r, .errR .ioEOF)
    | row :: _ =>
      let p := setValue (setLayout ty) row ty r
      (.ptrToStruct ty p.1, p.2)

/-- Element loop of Writer.Marshal: encode each record and push its row; the
first encoding error stops the loop before pushing anything for that
record. -/
def marshalRows (layout : Nat → String) : List Rec → List (List String) → List (List String) × GoRes
  | [], out => (out, .okR)
  | r :: rest, out =>
    match getStrings layout r with
    | (row, none) => marshalRows layout rest (out ++ [row])
    | (_, some e) => (out, .errR e)

/-- Writer.Marshal: validate that the source is a pointer (ErrNotPointer)
to a slice (ErrNotSlice); there is no check that the element type is a
struct, so layout resolution calls NumField on a non-struct element type
and panics.  The first component is the sequence of rows pushed to the
underlying csv writer (whose final Flush the model abstracts away). -/
def Marshal (arg : GoArg) : List (List String) × GoRes :=
  match arg with
  | .nonPtr _ => ([], .errR .errNotPointer)
  | .ptrToStruct _ _ => ([], .errR .errNotSlice)
  | .ptrToOther _ => ([], .errR .errNotSlice)
  | .ptrToSliceOfOther _ => ([], .faultR ("reflect: NumField of non-struct type"))
  | .ptrToPtrSlice _ _ => ([], .faultR ("reflect: NumField of non-struct type"))
  | .ptrToSlice ty es => marshalRows (setLayout ty) es []

/-! ### Value classes used by the claims about the engine -/

instance (q : ℚ) : Decidable (FloatOk q) :=
  decidable_of_iff (∃ k ∈ List.range 1101, q.den ∣ 10 ^ k) (by
    constructor
    · rintro ⟨k, hk, hd⟩
      have hk2 := List.mem_range.mp hk
      exact ⟨k, by omega, hd⟩
    · rintro ⟨k, hk, hd⟩
      exact ⟨k, List.mem_range.mpr (by omega), hd⟩)

/-- Representable values of one field under the active layout: any text or
boolean, an int64-range integer, a float64-style rational, and a time value
that its active format represents exactly, which for the default format is
exactly the RFC3339-representable times. -/
def ValOkL (l : String) : FKind → FVal → Prop
  | .plain .str, .base (.vstr _) => True
  | .plain .i64, .base (.vint n) => Int64Ok n
  | .plain .f64, .base (.vfloat q) => FloatOk q
  | .plain .bool, .base (.vbool _) => True
  | .plain .time, .base (.vtime t) =>
      if l = "" then TimeOk t else parseTime l (formatTime l t) = .ok t
  | _, _ => False

/-- Pointwise representability of a record tail against a type tail starting
at a field position. -/
def RecOkFromL (layout : Nat → String) : List FieldTy → List FVal → Nat → Prop
  | [], [], _ => True
  | f :: fs, v :: vs, i => ValOkL (layout i) f.kind v ∧ RecOkFromL layout fs vs (i + 1)
  | _, _, _ => False

/-- Representable record value of a supported (text, integer, real, boolean,
timestamp) record type. -/
def RecOk (ty : RecTy) (x : Rec) : Prop := RecOkFromL (setLayout ty) ty x 0

/-- Rows that decode one-to-one into the given records under a type. -/
def DecodesTo (layout : Nat → String) (ty : RecTy) :
    List (List String) → List Rec → Prop
  | [], [] => True
  | row :: rs, rec :: recs =>
      setValue layout row ty (zeroRec ty) = (rec, .okR) ∧ DecodesTo layout ty rs recs
  | _, _ => False

/-! ### Decidability of the value classes, used to evaluate witnesses -/

instance valOkLDec (l : String) (k : FKind) (v : FVal) : Decidable (ValOkL l k v) :=
  match k, v with
  | .plain .str, .base (.vstr _) => .isTrue trivial
  | .plain .i64, .base (.vint n) => inferInstanceAs (Decidable (Int64Ok n))
  | .plain .f64, .base (.vfloat q) => inferInstanceAs (Decidable (FloatOk q))
  | .plain .bool, .base (.vbool _) => .isTrue trivial
  | .plain .time, .base (.vtime t) =>
      inferInstanceAs (Decidable (if l = "" then TimeOk t else parseTime l (formatTime l t) = .ok t))
  | .plain .str, .base (.vint _) => .isFalse (fun hc => hc)
  | .plain .str, .base (.vfloat _) => .isFalse (fun hc => hc)
  | .plain .str, .base (.vbool _) => .isFalse (fun hc => hc)
  | .plain .str, .base (.vtime _) => .isFalse (fun hc => hc)
  | .plain .str, .base (.vother _ _) => .isFalse (fun hc => hc)
  | .plain .str, .ptr _ => .isFalse (fun hc => hc)
  | .plain .i64, .base (.vstr _) => .isFalse (fun hc => hc)
  | .plain .i64, .base (.vfloat _) => .isFalse (fun hc => hc)
  | .plain .i64, .base (.vbool _) => .isFalse (fun hc => hc)
  | .plain .i64, .base (.vtime _) => .isFalse (fun hc => hc)
  | .plain .i64, .base (.vother _ _) => .isFalse (fun hc => hc)
  | .plain .i64, .ptr _ => .isFalse (fun hc => hc)
  | .plain .f64, .base (.vstr _) => .isFalse (fun hc => hc)
  | .plain .f64, .base (.vint _) => .isFalse (fun hc => hc)
  | .plain .f64, .base (.vbool _) => .isFalse (fun hc => hc)
  | .plain .f64, .base (.vtime _) => .isFalse (fun hc => hc)
  | .plain .f64, .base (.vother _ _) => .isFalse (fun hc => hc)
  | .plain .f64, .ptr _ => .isFalse (fun hc => hc)
  | .plain .bool, .base (.vstr _) => .isFalse (fun hc => hc)
  | .plain .bool, .base (.vint _) => .isFalse (fun hc => hc)
  | .plain .bool, .base (.vfloat _) => .isFalse (fun hc => hc)
  | .plain .bool, .base (.vtime _) => .isFalse (fun hc => hc)
  | .plain .bool, .base (.vother _ _) => .isFalse (fun hc => hc)
  | .plain .bool, .ptr _ => .isFalse (fun hc => hc)
  | .plain .time, .base (.vstr _) => .isFalse (fun hc => hc)
  | .plain .time, .base (.vint _) => .isFalse (fun hc => hc)
  | .plain .time, .base (.vfloat _) => .isFalse (fun hc => hc)
  | .plain .time, .base (.vbool _) => .isFalse (fun hc => hc)
  | .plain .time, .base (.vother _ _) => .isFalse (fun hc => hc)
  | .plain .time, .ptr _ => .isFalse (fun hc => hc)
  | .plain (.otherStruct _), _ => .isFalse (fun hc => hc)
  | .plain (.otherKind _), _ => .isFalse (fun hc => hc)
  | .ptrTo _, _ => .isFalse (fun hc => hc)

instance recOkFromLDec (layout : Nat → String) :
    ∀ (fs : List FieldTy) (vs : List FVal) (i : Nat), Decidable (RecOkFromL layout fs vs i)
  | [], [], _ => .isTrue trivial
  | _f :: fs, _v :: vs, i =>
      have : Decidable (RecOkFromL layout fs vs (i + 1)) := recOkFromLDec layout fs vs (i + 1)
      inferInstanceAs (Decidable (_ ∧ _))
  | [], _ :: _, _ => .isFalse (fun hc => hc)
  | _ :: _, [], _ => .isFalse (fun hc => hc)

instance (ty : RecTy) (x : Rec) : Decidable (RecOk ty x) :=
  inferInstanceAs (Decidable (RecOkFromL (setLayout ty) ty x 0))

/-! ### Concrete record types and values used by witnesses and
counterexamples -/

def ceTy1 : RecTy := [⟨.plain .time, "Jan _2"⟩]

def ceX1 : Rec := [.base (.vtime ⟨1776, 7, 4, 0, 0, 0, 0⟩)]

def wTy1 : RecTy :=
  [⟨.plain .str, ""⟩, ⟨.plain .i64, ""⟩, ⟨.plain .f64, ""⟩, ⟨.plain .bool, ""⟩,
   ⟨.plain .time, ""⟩, ⟨.plain .time, "Jan _2"⟩]

def wX1 : Rec :=
  [.base (.vstr "US"), .base (.vint 317808000), .base (.vfloat (mkRat 17438 1000)),
   .base (.vbool true), .base (.vtime ⟨1776, 7, 4, 0, 0, 0, 0⟩),
   .base (.vtime ⟨0, 7, 4, 0, 0, 0, 0⟩)]

def pairTy : RecTy := [⟨.plain .str, ""⟩, ⟨.plain .i64, ""⟩]

def shortMapTy : RecTy := [⟨.plain .str, ""⟩, ⟨.plain (.otherKind "map"), ""⟩]

def intPairTy : RecTy := [⟨.plain .i64, ""⟩, ⟨.plain .i64, ""⟩]

def holidayTy : RecTy := [⟨.plain .str, ""⟩, ⟨.plain .time, "Jan _2"⟩]

theorem natDigitsAux_irrel {n : Nat} : ∀ {fuel fuel' : Nat}, n < fuel → n < fuel' →
    natDigitsAux fuel n = natDigitsAux fuel' n := by
  induction n using Nat.strongRecOn with
  | ind n ih =>
    intro fuel fuel' hf hf'
    match fuel, fuel' with
    | f + 1, g + 1 =>
      rw [natDigitsAux, natDigitsAux]
      by_cases h10 : n < 10
      · rw [if_pos h10, if_pos h10]
      · rw [if_neg h10, if_neg h10]
        have hlt : n / 10 < n := Nat.div_lt_self (by omega) (by omega)
        have hf1 : n / 10 < f := by omega
        have hg1 : n / 10 < g := by omega
        rw [ih (n / 10) hlt hf1 hg1]

/-- One-step unfolding of the digit list. -/
theorem natDigits_unfold (n : Nat) :
    natDigits n = if n < 10 then [digitC n] else natDigits (n / 10) ++ [digitC (n % 10)] := by
  rw [natDigits, natDigitsAux]
  by_cases h10 : n < 10
  · rw [if_pos h10, if_pos h10]
  · rw [if_neg h10, if_neg h10, natDigits]
    have hlt : n / 10 < n := Nat.div_lt_self (by omega) (by omega)
    have h1 : n / 10 < n := hlt
    have h2 : n / 10 < n / 10 + 1 := by omega
    rw [natDigitsAux_irrel h1 h2]

theorem dval_digitC {d : Nat} (h : d < 10) : dval (digitC d) = d := by
  interval_cases d <;> decide

theorem isDigitC_digitC {d : Nat} (h : d < 10) : isDigitC (digitC d) = true := by
  interval_cases d <;> decide

theorem digitsValFrom_append (a : Nat) (xs ys : List Char) :
    digitsValFrom a (xs ++ ys) = digitsValFrom (digitsValFrom a xs) ys := by
  simp [digitsValFrom, List.foldl_append]

theorem digitsValFrom_eq (a : Nat) (cs : List Char) :
    digitsValFrom a cs = a * 10 ^ cs.length + digitsVal cs := by
  induction cs generalizing a with
  | nil => simp [digitsValFrom, digitsVal]
  | cons c cs ih =>
      have h1 : digitsValFrom a (c :: cs) = digitsValFrom (a * 10 + dval c) cs := rfl
      have h2 : digitsVal (c :: cs) = digitsValFrom (dval c) cs := by
        simp [digitsVal, digitsValFrom]
      rw [h1, h2, ih (a * 10 + dval c), ih (dval c)]
      simp [List.length_cons, pow_succ]
      ring

theorem digitsVal_append (xs ys : List Char) :
    digitsVal (xs ++ ys) = digitsVal xs * 10 ^ ys.length + digitsVal ys := by
  rw [digitsVal, digitsValFrom_append]
  exact digitsValFrom_eq (digitsVal xs) ys

theorem digitsVal_natDigits (n : Nat) : digitsVal (natDigits n) = n := by
  induction n using Nat.strongRecOn with
  | ind n ih =>
    rw [natDigits_unfold]
    by_cases h : n < 10
    · simp only [if_pos h]
      simp [digitsVal, digitsValFrom, dval_digitC h]
    · simp only [if_neg h]
      rw [digitsVal_append, ih (n / 10) (Nat.div_lt_self (by omega) (by omega))]
      have hm : dval (digitC (n % 10)) = n % 10 := dval_digitC (Nat.mod_lt _ (by omega))
      simp [digitsVal, digitsValFrom, hm]
      omega

theorem natDigits_all_digits (n : Nat) : (natDigits n).all isDigitC = true := by
  induction n using Nat.strongRecOn with
  | ind n ih =>
    rw [natDigits_unfold]
    by_cases h : n < 10
    · simp [if_pos h, List.all_cons, isDigitC_digitC h]
    · simp only [if_neg h, List.all_append, Bool.and_eq_true]
      refine And.intro (ih (n / 10) (Nat.div_lt_self (by omega) (by omega))) ?_
      simp [List.all_cons, isDigitC_digitC (Nat.mod_lt _ (by omega : 0 < 10) : n % 10 < 10)]

theorem natDigits_ne_nil (n : Nat) : natDigits n ≠ [] := by
  rw [natDigits_unfold]
  by_cases h : n < 10
  · simp [if_pos h]
  · simp [if_neg h]

theorem natDigits_length_le {k n : Nat} (hk : 1 ≤ k) (h : n < 10 ^ k) :
    (natDigits n).length ≤ k := by
  induction n using Nat.strongRecOn generalizing k with
  | ind n ih =>
    rw [natDigits_unfold]
    by_cases hn : n < 10
    · simpa [if_pos hn] using hk
    · simp only [if_neg hn, List.length_append, List.length_cons, List.length_nil]
      have hk2 : 2 ≤ k := by
        rcases Nat.lt_or_ge k 2 with hlt | hge
        · have hk1 : k = 1 := by omega
          subst hk1
          norm_num at h
          omega
        · exact hge
      have h10 : 10 ^ k = 10 ^ (k - 1) * 10 := by
        rw [← pow_succ]
        congr 1
        omega
      have hdiv : n / 10 < 10 ^ (k - 1) := by
        rw [Nat.div_lt_iff_lt_mul (by omega : 0 < 10)]
        omega
      have hk1 : 1 ≤ k - 1 := by omega
      have := ih (n / 10) (Nat.div_lt_self (by omega) (by omega)) hk1 hdiv
      omega

theorem digitsVal_replicate_zero (j : Nat) :
    digitsVal (List.replicate j '0') = 0 := by
  induction j with
  | zero => rfl
  | succ j ih =>
      have : List.replicate (j + 1) '0' = '0' :: List.replicate j '0' := rfl
      rw [this]
      have h0 : digitsVal ('0' :: List.replicate j '0')
          = digitsValFrom (dval '0') (List.replicate j '0') := by
        simp [digitsVal, digitsValFrom]
      rw [h0]
      have : dval '0' = 0 := by decide
      rw [this]
      exact ih

theorem digitsVal_padZeros (k : Nat) (cs : List Char) :
    digitsVal (padZeros k cs) = digitsVal cs := by
  rw [padZeros, digitsVal_append, digitsVal_replicate_zero]
  omega

theorem padZeros_length {k : Nat} {cs : List Char} (h : cs.length ≤ k) :
    (padZeros k cs).length = k := by
  simp [padZeros]
  omega

theorem padZeros_all_digits {k : Nat} {cs : List Char}
    (h : cs.all isDigitC = true) : (padZeros k cs).all isDigitC = true := by
  simp only [padZeros, List.all_append, Bool.and_eq_true]
  refine And.intro ?_ h
  simp only [List.all_eq_true]
  intro c hc
  rw [List.eq_of_mem_replicate hc]
  decide

theorem isDigitC_ne_sign {c : Char} (h : isDigitC c = true) :
    ¬(c = '+' ∨ c = '-') := by
  intro hc
  cases hc with
  | inl h1 => rw [h1] at h; exact absurd h (by decide)
  | inr h1 => rw [h1] at h; exact absurd h (by decide)

theorem parseIntDigits_natDigits (s : String) (neg : Bool) (n : Nat) :
    parseIntDigits s neg (natDigits n)
      = if neg = true then
          (if 2 ^ 63 < n then .error (GoError.numError ("ParseInt") s ("value out of range"))
           else .ok (-(n : Int)))
        else
          (if 2 ^ 63 ≤ n then .error (GoError.numError ("ParseInt") s ("value out of range"))
           else .ok ((n : Int))) := by
  obtain ⟨c, cs, hcons⟩ : ∃ c cs, natDigits n = c :: cs := by
    cases hnd : natDigits n with
    | nil => exact absurd hnd (natDigits_ne_nil _)
    | cons a l => exact ⟨a, l, rfl⟩
  have hall : (c :: cs).all isDigitC = true := by rw [← hcons]; exact natDigits_all_digits _
  have hval : digitsVal (c :: cs) = n := by rw [← hcons]; exact digitsVal_natDigits _
  rw [hcons, parseIntDigits, if_pos hall, hval]

theorem parseInt64_formatInt64 {v : Int} (h : Int64Ok v) :
    parseInt64 (formatInt64 v) = .ok v := by
  obtain ⟨hlo, hhi⟩ := h
  by_cases hv : v < 0
  · have hform : formatInt64 v = String.mk ('-' :: natDigits v.natAbs) := by
      rw [formatInt64, if_pos hv]
    rw [hform, parseInt64]
    simp only [String.data]
    rw [if_pos (by trivial), parseIntDigits_natDigits, if_pos rfl,
      if_neg (by omega : ¬(2 ^ 63 < v.natAbs))]
    have habs : (v.natAbs : Int) = -v := by omega
    rw [habs, neg_neg]
  · have hform : formatInt64 v = String.mk (natDigits v.natAbs) := by
      rw [formatInt64, if_neg hv]
    rw [hform, parseInt64]
    obtain ⟨c, cs, hcons⟩ : ∃ c cs, natDigits v.natAbs = c :: cs := by
      cases hnd : natDigits v.natAbs with
      | nil => exact absurd hnd (natDigits_ne_nil _)
      | cons a l => exact ⟨a, l, rfl⟩
    simp only [String.data, hcons]
    have hcd : isDigitC c = true := by
      have := natDigits_all_digits v.natAbs
      rw [hcons] at this
      simp [List.all_cons] at this
      exact this.1
    have hsign : ¬(c = '+' ∨ c = '-') := isDigitC_ne_sign hcd
    rw [if_neg (fun hcc => hsign (Or.inr hcc)), if_neg (fun hcc => hsign (Or.inl hcc)),
      ← hcons, parseIntDigits_natDigits]
    have hnegf : ¬((false : Bool) = true) := by decide
    rw [if_neg hnegf, if_neg (by omega : ¬(2 ^ 63 ≤ v.natAbs))]
    have : (v.natAbs : Int) = v := by omega
    rw [this]

theorem parseBool_formatBool (b : Bool) : parseBool (formatBool b) = .ok b := by
  cases b <;> rfl

theorem findExp_dvd {q : ℚ} (h : FloatOk q) : q.den ∣ 10 ^ findExp q.den := by
  obtain ⟨k, hk, hdvd⟩ := h
  have hmem : k ∈ List.range 1101 := List.mem_range.mpr (by omega)
  have hpred : (fun j => decide (10 ^ j % q.den = 0)) k = true := by
    simp [Nat.dvd_iff_mod_eq_zero] at hdvd ⊢
    exact hdvd
  have hsome : ((List.range 1101).find? fun j => decide (10 ^ j % q.den = 0)).isSome := by
    rw [List.find?_isSome]
    exact ⟨k, hmem, hpred⟩
  obtain ⟨j, hj⟩ := Option.isSome_iff_exists.mp hsome
  have hpj := List.find?_some hj
  rw [Nat.dvd_iff_mod_eq_zero]
  have : findExp q.den = j := by
    rw [findExp, hj]
    rfl
  rw [this]
  simpa using hpj

theorem splitDigits_all {xs : List Char} (h : xs.all isDigitC = true) :
    splitDigits xs = (xs, []) := by
  induction xs with
  | nil => rfl
  | cons c cs ih =>
      simp only [List.all_cons, Bool.and_eq_true] at h
      rw [splitDigits, if_pos h.1, ih h.2]

theorem splitDigits_append {xs ys : List Char} {y : Char}
    (hx : xs.all isDigitC = true) (hy : isDigitC y = false) :
    splitDigits (xs ++ y :: ys) = (xs, y :: ys) := by
  induction xs with
  | nil =>
      rw [List.nil_append, splitDigits, if_neg (by simp [hy])]
  | cons c cs ih =>
      simp only [List.all_cons, Bool.and_eq_true] at hx
      rw [List.cons_append, splitDigits, if_pos hx.1, ih hx.2]

theorem rat_div_pow_eq {n d m k : Nat} (hd : 0 < d) (hm : 10 ^ k = d * m) :
    ((n * (10 ^ k / d) : Nat) : ℚ) / (10 : ℚ) ^ k = (n : ℚ) / (d : ℚ) := by
  have hm0 : m ≠ 0 := by
    intro hc
    rw [hc, Nat.mul_zero] at hm
    exact absurd hm (by positivity)
  have hdl : 10 ^ k / d = m := by
    rw [hm, Nat.mul_div_cancel_left _ hd]
  rw [hdl]
  have hcast : ((10 : ℚ)) ^ k = ((10 ^ k : Nat) : ℚ) := by push_cast; ring
  rw [hcast, hm]
  push_cast
  rw [mul_comm (d : ℚ) (m : ℚ), ← div_div]
  congr 1
  rw [mul_div_assoc, div_self (by exact_mod_cast hm0), mul_one]

theorem parseFloatDigits_int (s : String) (neg : Bool) (D : Nat) :
    parseFloatDigits s neg (natDigits D)
      = .ok (if neg = true then -(D : ℚ) else (D : ℚ)) := by
  have hsplit := splitDigits_all (natDigits_all_digits D)
  have hne : ¬(natDigits D = []) := natDigits_ne_nil D
  rw [parseFloatDigits]
  simp only [hsplit, if_neg hne, digitsVal_natDigits]

theorem parseFloatDigits_frac (s : String) (neg : Bool) (k D : Nat) (hk : 1 ≤ k) :
    parseFloatDigits s neg (natDigits (D / 10 ^ k) ++ '.' :: padZeros k (natDigits (D % 10 ^ k)))
      = .ok (if neg = true then -((D : ℚ) / (10 : ℚ) ^ k) else (D : ℚ) / (10 : ℚ) ^ k) := by
  have hip : (natDigits (D / 10 ^ k)).all isDigitC = true := natDigits_all_digits _
  have hfp : (padZeros k (natDigits (D % 10 ^ k))).all isDigitC = true :=
    padZeros_all_digits (natDigits_all_digits _)
  have hdot : isDigitC '.' = false := by decide
  have hsplit1 := @splitDigits_append _ (padZeros k (natDigits (D % 10 ^ k))) _ hip hdot
  have hsplit2 := splitDigits_all hfp
  have hlen : (padZeros k (natDigits (D % 10 ^ k))).length = k :=
    padZeros_length (natDigits_length_le hk (Nat.mod_lt _ (by positivity)))
  have hval : digitsVal (natDigits (D / 10 ^ k) ++ padZeros k (natDigits (D % 10 ^ k))) = D := by
    rw [digitsVal_append, hlen, digitsVal_padZeros, digitsVal_natDigits, digitsVal_natDigits]
    calc D / 10 ^ k * 10 ^ k + D % 10 ^ k
        = 10 ^ k * (D / 10 ^ k) + D % 10 ^ k := by ring
      _ = D := Nat.div_add_mod D (10 ^ k)
  have hne : ¬(natDigits (D / 10 ^ k) = [] ∧ padZeros k (natDigits (D % 10 ^ k)) = []) := by
    intro hc
    exact natDigits_ne_nil _ hc.1
  rw [parseFloatDigits]
  simp only [hsplit1, hsplit2, if_pos (rfl : ('.' : Char) = '.'), if_neg hne, hlen, hval]
  simp

theorem parseFloat64_formatFloat64 {q : ℚ} (h : FloatOk q) :
    parseFloat64 (formatFloat64 q) = .ok q := by
  have hdvd := findExp_dvd h
  obtain ⟨m, hm⟩ := hdvd
  set k := findExp q.den with hkdef
  set D := q.num.natAbs * (10 ^ k / q.den) with hDdef
  have hden : 0 < q.den := q.pos
  have habs : ((q.num.natAbs : Nat) : ℚ) / (q.den : ℚ) = |q| := by
    rcases le_or_lt 0 q.num with hn | hn
    · have hq0 : 0 ≤ q := Rat.num_nonneg.mp hn
      rw [abs_of_nonneg hq0, Int.cast_natAbs, abs_of_nonneg hn, Rat.num_div_den]
    · have hq0 : q < 0 := by
        by_contra hcq
        exact absurd (Rat.num_nonneg.mpr (not_lt.mp hcq)) (not_le.mpr hn)
      rw [abs_of_neg hq0, Int.cast_natAbs, abs_of_neg hn, Int.cast_neg, neg_div,
        Rat.num_div_den]
  have hDval : ((D : Nat) : ℚ) / (10 : ℚ) ^ k = |q| := by
    rw [hDdef, rat_div_pow_eq hden hm, habs]
  -- the body parses to the absolute value, with the sign reattached outside
  have hbody : ∀ neg : Bool, parseFloatDigits (formatFloat64 q) neg
      (if k = 0 then natDigits D
       else natDigits (D / 10 ^ k) ++ '.' :: padZeros k (natDigits (D % 10 ^ k)))
      = .ok (if neg = true then -|q| else |q|) := by
    intro neg
    by_cases hk0 : k = 0
    · rw [if_pos hk0, parseFloatDigits_int]
      have : ((D : Nat) : ℚ) = |q| := by
        rw [← hDval, hk0]
        simp
      rw [this]
    · rw [if_neg hk0, parseFloatDigits_frac _ _ _ _ (by omega), hDval]
  by_cases hq : q < 0
  · have hqn : q.num < 0 := by
      by_contra hc
      exact absurd (Rat.num_nonneg.mp (not_lt.mp hc)) (not_le.mpr hq)
    have hform : formatFloat64 q = String.mk ('-' ::
        (if k = 0 then natDigits D
         else natDigits (D / 10 ^ k) ++ '.' :: padZeros k (natDigits (D % 10 ^ k)))) := by
      rw [formatFloat64, if_pos hqn]
    rw [hform] at hbody ⊢
    rw [parseFloat64]
    simp only [String.data]
    rw [if_pos (by trivial)]
    rw [hbody true]
    have : -|q| = q := by
      rw [abs_of_neg hq, neg_neg]
    rw [if_pos rfl, this]
  · have hqn : ¬(q.num < 0) := by
      rw [not_lt]
      exact Rat.num_nonneg.mpr (not_lt.mp hq)
    have hform : formatFloat64 q = String.mk
        (if k = 0 then natDigits D
         else natDigits (D / 10 ^ k) ++ '.' :: padZeros k (natDigits (D % 10 ^ k))) := by
      rw [formatFloat64, if_neg hqn]
    obtain ⟨c, cs, hcons, hcd⟩ : ∃ c cs,
        (if k = 0 then natDigits D
         else natDigits (D / 10 ^ k) ++ '.' :: padZeros k (natDigits (D % 10 ^ k))) = c :: cs
        ∧ isDigitC c = true := by
      by_cases hk0 : k = 0
      · rw [if_pos hk0]
        cases hnd : natDigits D with
        | nil => exact absurd hnd (natDigits_ne_nil _)
        | cons a l =>
            have hall := natDigits_all_digits D
            rw [hnd, List.all_cons, Bool.and_eq_true] at hall
            exact ⟨a, l, rfl, hall.1⟩
      · rw [if_neg hk0]
        cases hnd : natDigits (D / 10 ^ k) with
        | nil => exact absurd hnd (natDigits_ne_nil _)
        | cons a l =>
            have hall := natDigits_all_digits (D / 10 ^ k)
            rw [hnd, List.all_cons, Bool.and_eq_true] at hall
            exact ⟨a, l ++ '.' :: padZeros k (natDigits (D % 10 ^ k)), rfl, hall.1⟩
    have hsign : ¬(c = '+' ∨ c = '-') := isDigitC_ne_sign hcd
    rw [hform, parseFloat64]
    simp only [String.data, hcons]
    rw [if_neg (fun hcc => hsign (Or.inr hcc)), if_neg (fun hcc => hsign (Or.inl hcc)),
      ← hcons]
    rw [hform] at hbody
    rw [hbody false]
    have habsq : |q| = q := abs_of_nonneg (not_lt.mp hq)
    rw [if_neg (by decide : ¬((false : Bool) = true)), habsq]

theorem pad2_eq {n : Nat} (h : n ≤ 99) : pad2 n = [digitC (n / 10), digitC (n % 10)] := by
  by_cases h10 : n < 10
  · have hnd : natDigits n = [digitC n] := by
      rw [natDigits_unfold]
      simp [if_pos h10]
    have hdiv : n / 10 = 0 := by omega
    have hmod : n % 10 = n := by omega
    rw [pad2, hnd, padZeros, hdiv, hmod]
    rfl
  · have h1 : n / 10 < 10 := by omega
    have hnd1 : natDigits (n / 10) = [digitC (n / 10)] := by
      rw [natDigits_unfold]
      simp [if_pos h1]
    have hnd : natDigits n = [digitC (n / 10), digitC (n % 10)] := by
      rw [natDigits_unfold]
      simp only [if_neg h10, hnd1]
      rfl
    rw [pad2, hnd, padZeros]
    rfl

theorem getnum_pad2 (fixed : Bool) {n : Nat} (h : n ≤ 99) (rest : List Char) :
    getnum fixed (pad2 n ++ rest) = .ok (n, rest) := by
  rw [pad2_eq h]
  have hd1 : isDigitC (digitC (n / 10)) = true := isDigitC_digitC (by omega)
  have hd2 : isDigitC (digitC (n % 10)) = true := isDigitC_digitC (by omega)
  have hv1 : dval (digitC (n / 10)) = n / 10 := dval_digitC (by omega)
  have hv2 : dval (digitC (n % 10)) = n % 10 := dval_digitC (by omega)
  show getnum fixed (digitC (n / 10) :: digitC (n % 10) :: rest) = .ok (n, rest)
  simp only [getnum, hd1, hd2, if_true, hv1, hv2]
  have : n / 10 * 10 + n % 10 = n := by omega
  rw [this]

theorem pad4_length {n : Nat} (h : n ≤ 9999) : (pad4 n).length = 4 :=
  padZeros_length (natDigits_length_le (by omega) (by omega))

theorem getnum4_pad4 {n : Nat} (h : n ≤ 9999) (rest : List Char) :
    getnum4 (pad4 n ++ rest) = .ok (n, rest) := by
  have hlen : (pad4 n).length = 4 := pad4_length h
  have htake : (pad4 n ++ rest).take 4 = pad4 n := by
    rw [← hlen]
    exact List.take_left _ _
  have hdrop : (pad4 n ++ rest).drop 4 = rest := by
    rw [← hlen]
    exact List.drop_left _ _
  have hall : (pad4 n).all isDigitC = true := padZeros_all_digits (natDigits_all_digits n)
  have hval : digitsVal (pad4 n) = n := by
    rw [pad4, digitsVal_padZeros, digitsVal_natDigits]
  rw [getnum4, if_pos ?side]
  · rw [htake, hdrop, hval]
  · refine And.intro ?_ ?_
    · rw [List.length_append, hlen]
      omega
    · rw [htake]
      exact hall

/-! Chunk-level parse steps over formatted output. -/

theorem parseChunks_nil (st : GoTime) (v : List Char) : parseChunks st v [] = .ok (st, v) := rfl

theorem parseChunks_step {st st2 : GoTime} {v v2 : List Char} {ch : Chunk} (chs : List Chunk)
    (h : parseChunk st v ch = .ok (st2, v2)) :
    parseChunks st v (ch :: chs) = parseChunks st2 v2 chs := by
  rw [parseChunks, h]

theorem parseChunk_lit {c : Char} (hc : c ≠ ' ') (st : GoTime) (rest : List Char) :
    parseChunk st (c :: rest) (.lit c) = .ok (st, rest) := by
  simp [parseChunk, skipLit, hc]

theorem parseChunk_longYear_pad {n : Nat} (h : n ≤ 9999) (st : GoTime) (rest : List Char) :
    parseChunk st (pad4 n ++ rest) .longYear = .ok ({ st with year := (n : Int) }, rest) := by
  simp only [parseChunk, getnum4_pad4 h]

theorem parseChunk_zeroMonth_pad {n : Nat} (h : n ≤ 99) (st : GoTime) (rest : List Char) :
    parseChunk st (pad2 n ++ rest) .zeroMonth = .ok ({ st with month := n }, rest) := by
  simp only [parseChunk, getnum_pad2 true h]

theorem parseChunk_zeroDay_pad {n : Nat} (h : n ≤ 99) (st : GoTime) (rest : List Char) :
    parseChunk st (pad2 n ++ rest) .zeroDay = .ok ({ st with day := n }, rest) := by
  simp only [parseChunk, getnum_pad2 true h]

theorem parseChunk_hour_pad {n : Nat} (h : n ≤ 99) (st : GoTime) (rest : List Char) :
    parseChunk st (pad2 n ++ rest) .hourOfDay = .ok ({ st with hour := n }, rest) := by
  simp only [parseChunk, getnum_pad2 false h]

theorem parseChunk_zeroMinute_pad {n : Nat} (h : n ≤ 99) (st : GoTime) (rest : List Char) :
    parseChunk st (pad2 n ++ rest) .zeroMinute = .ok ({ st with minute := n }, rest) := by
  simp only [parseChunk, getnum_pad2 true h]

theorem parseChunk_zeroSecond_pad {n : Nat} (h : n ≤ 99) (st : GoTime) (rest : List Char) :
    parseChunk st (pad2 n ++ rest) .zeroSecond = .ok ({ st with second := n }, rest) := by
  simp only [parseChunk, getnum_pad2 true h]

theorem parseChunk_zone {off : Int} (h1 : -(24 * 60) < off) (h2 : off < 24 * 60)
    (st : GoTime) (rest : List Char) :
    parseChunk st (formatZone off ++ rest) .isoColonTZ
      = .ok ({ st with offsetMin := off }, rest) := by
  by_cases h0 : off = 0
  · subst h0
    rw [formatZone]
    simp [parseChunk]
  · rw [formatZone, if_neg h0]
    have hd60 : off.natAbs / 60 ≤ 99 := by omega
    have hm60 : off.natAbs % 60 ≤ 99 := by omega
    rw [pad2_eq hd60, pad2_eq hm60]
    have hud1 : isDigitC (digitC (off.natAbs / 60 / 10)) = true := isDigitC_digitC (by omega)
    have hud2 : isDigitC (digitC (off.natAbs / 60 % 10)) = true := isDigitC_digitC (by omega)
    have hud3 : isDigitC (digitC (off.natAbs % 60 / 10)) = true := isDigitC_digitC (by omega)
    have hud4 : isDigitC (digitC (off.natAbs % 60 % 10)) = true := isDigitC_digitC (by omega)
    have he1 : dval (digitC (off.natAbs / 60 / 10)) = off.natAbs / 60 / 10 := dval_digitC (by omega)
    have he2 : dval (digitC (off.natAbs / 60 % 10)) = off.natAbs / 60 % 10 := dval_digitC (by omega)
    have he3 : dval (digitC (off.natAbs % 60 / 10)) = off.natAbs % 60 / 10 := dval_digitC (by omega)
    have he4 : dval (digitC (off.natAbs % 60 % 10)) = off.natAbs % 60 % 10 := dval_digitC (by omega)
    have hoffval : (off.natAbs / 60 / 10 * 10 + off.natAbs / 60 % 10) * 60
        + (off.natAbs % 60 / 10 * 10 + off.natAbs % 60 % 10) = off.natAbs := by omega
    by_cases hneg : off < 0
    · rw [if_pos hneg]
      show parseChunk st
        ('-' :: (digitC (off.natAbs / 60 / 10) :: digitC (off.natAbs / 60 % 10)
          :: ':' :: digitC (off.natAbs % 60 / 10) :: digitC (off.natAbs % 60 % 10) :: rest))
        .isoColonTZ = _
      simp only [parseChunk]
      rw [if_neg (by decide : ¬(('-' : Char) = 'Z'))]
      rw [if_pos (show (('-' : Char) = '+' ∨ True) ∧ True
        ∧ isDigitC (digitC (off.natAbs / 60 / 10)) = true
        ∧ isDigitC (digitC (off.natAbs / 60 % 10)) = true
        ∧ isDigitC (digitC (off.natAbs % 60 / 10)) = true
        ∧ isDigitC (digitC (off.natAbs % 60 % 10)) = true
        from ⟨Or.inr trivial, trivial, hud1, hud2, hud3, hud4⟩)]
      rw [if_pos (trivial : True)]
      rw [he1, he2, he3, he4, hoffval]
      have hoff : -((off.natAbs : Nat) : Int) = off := by omega
      rw [hoff]
    · rw [if_neg hneg]
      show parseChunk st
        ('+' :: (digitC (off.natAbs / 60 / 10) :: digitC (off.natAbs / 60 % 10)
          :: ':' :: digitC (off.natAbs % 60 / 10) :: digitC (off.natAbs % 60 % 10) :: rest))
        .isoColonTZ = _
      simp only [parseChunk]
      rw [if_neg (by decide : ¬(('+' : Char) = 'Z'))]
      rw [if_pos (show (True ∨ ('+' : Char) = '-') ∧ True
        ∧ isDigitC (digitC (off.natAbs / 60 / 10)) = true
        ∧ isDigitC (digitC (off.natAbs / 60 % 10)) = true
        ∧ isDigitC (digitC (off.natAbs % 60 / 10)) = true
        ∧ isDigitC (digitC (off.natAbs % 60 % 10)) = true
        from ⟨Or.inl trivial, trivial, hud1, hud2, hud3, hud4⟩)]
      rw [if_neg (by decide : ¬(('+' : Char) = '-'))]
      rw [he1, he2, he3, he4, hoffval]
      have hoff : ((off.natAbs : Nat) : Int) = off := by omega
      rw [hoff]

theorem daysIn_le (m : Nat) (y : Int) : daysIn m y ≤ 31 := by
  rw [daysIn]
  split_ifs <;> omega

/-- Chunk sequence of the RFC3339 layout under the scanner. -/
theorem scan_rfc3339 : scanLayout rfc3339.data =
    [.longYear, .lit '-', .zeroMonth, .lit '-', .zeroDay, .lit 'T', .hourOfDay,
     .lit ':', .zeroMinute, .lit ':', .zeroSecond, .isoColonTZ] := by
  rfl

theorem parseTime_formatTime_rfc3339 {t : GoTime} (h : TimeOk t) :
    parseTime rfc3339 (formatTime rfc3339 t) = .ok t := by
  obtain ⟨y, mo, d, hr, mi, se, off⟩ := t
  obtain ⟨hy0, hy1, hmo1, hmo2, hd1, hd2, hhr, hmi, hse, ho1, ho2⟩ := h
  simp only at hy0 hy1 hmo1 hmo2 hd1 hd2 hhr hmi hse ho1 ho2
  have hfmt : (formatTime rfc3339 ⟨y, mo, d, hr, mi, se, off⟩).data
      = pad4 y.toNat ++ ('-' :: (pad2 mo ++ ('-' :: (pad2 d ++ ('T' :: (pad2 hr
        ++ (':' :: (pad2 mi ++ (':' :: (pad2 se ++ formatZone off)))))))))) := by
    rw [formatTime, scan_rfc3339]
    simp only [List.map_cons, List.map_nil, List.flatten]
    simp only [formatChunk, if_neg (not_lt.mpr hy0)]
    simp [List.append_assoc]
  have hytoNat : ((y.toNat : Nat) : Int) = y := Int.toNat_of_nonneg hy0
  have hd99 : d ≤ 99 := le_trans hd2 (le_trans (daysIn_le mo y) (by omega))
  rw [parseTime, hfmt, scan_rfc3339]
  rw [parseChunks_step _ (parseChunk_longYear_pad (by omega) _ _),
    parseChunks_step _ (parseChunk_lit (by decide) _ _),
    parseChunks_step _ (parseChunk_zeroMonth_pad (by omega) _ _),
    parseChunks_step _ (parseChunk_lit (by decide) _ _),
    parseChunks_step _ (parseChunk_zeroDay_pad (by omega) _ _),
    parseChunks_step _ (parseChunk_lit (by decide) _ _),
    parseChunks_step _ (parseChunk_hour_pad (by omega) _ _),
    parseChunks_step _ (parseChunk_lit (by decide) _ _),
    parseChunks_step _ (parseChunk_zeroMinute_pad (by omega) _ _),
    parseChunks_step _ (parseChunk_lit (by decide) _ _),
    parseChunks_step _ (parseChunk_zeroSecond_pad (by omega) _ _)]
  dsimp only
  have hzone : parseChunks ⟨(y.toNat : Int), mo, d, hr, mi, se, 0⟩
      (formatZone off) [Chunk.isoColonTZ]
      = Except.ok ((⟨(y.toNat : Int), mo, d, hr, mi, se, off⟩ : GoTime), ([] : List Char)) := by
    have hz1 : -(24 * 60) < off := by omega
    have hz2 : off < 24 * 60 := by omega
    have hz := parseChunk_zone hz1 hz2
      ⟨(y.toNat : Int), mo, d, hr, mi, se, 0⟩ ([] : List Char)
    rw [List.append_nil] at hz
    rw [parseChunks_step _ hz, parseChunks_nil]
  rw [hzone]
  dsimp only
  rw [hytoNat]
  have hrest : ¬(([] : List Char) ≠ []) := by simp
  rw [if_neg hrest]
  rw [if_neg (by omega : ¬(mo < 1 ∨ 12 < mo))]
  rw [if_neg (by omega : ¬(d < 1 ∨ daysIn mo y < d))]
  rw [if_neg (by omega : ¬(24 ≤ hr))]
  rw [if_neg (by omega : ¬(60 ≤ mi))]
  rw [if_neg (by omega : ¬(60 ≤ se))]

theorem get?_append_len {α : Type} (pre : List α) (x : α) (rest : List α) :
    (pre ++ x :: rest).get? pre.length = some x := by
  induction pre with
  | nil => rfl
  | cons a l ih => simpa using ih

theorem take_set_succ {α : Type} : ∀ (l : List α) (i : Nat) (v : α), i < l.length →
    (l.set i v).take (i + 1) = l.take i ++ [v] := by
  intro l
  induction l with
  | nil => intro i v h; simp at h
  | cons a l ih =>
      intro i v h
      match i with
      | 0 => simp
      | j + 1 =>
        have hj : j < l.length := by simpa using h
        simp only [List.set, List.take, List.cons_append]
        rw [ih j v hj]

/-- Per-field round trip: a representable value encodes without error to a
token that the conversion switch decodes back to the value. -/
theorem field_roundtrip {l : String} {k : FKind} {v : FVal} (i : Nat) (h : ValOkL l k v) :
    ∃ tok, encodeVal i l v = .ok tok ∧ convertField i l k tok = .ok v := by
  match k, v with
  | .plain .str, .base (.vstr s) => exact ⟨s, rfl, rfl⟩
  | .plain .i64, .base (.vint n) =>
      refine ⟨formatInt64 n, rfl, ?_⟩
      have hp : parseInt64 (formatInt64 n) = .ok n := parseInt64_formatInt64 h
      simp [convertField, convertBase, hp, Except.map]
  | .plain .f64, .base (.vfloat q) =>
      refine ⟨formatFloat64 q, rfl, ?_⟩
      have hp : parseFloat64 (formatFloat64 q) = .ok q := parseFloat64_formatFloat64 h
      simp [convertField, convertBase, hp, Except.map]
  | .plain .bool, .base (.vbool b) =>
      refine ⟨formatBool b, rfl, ?_⟩
      have hp : parseBool (formatBool b) = .ok b := parseBool_formatBool b
      simp [convertField, convertBase, hp, Except.map]
  | .plain .time, .base (.vtime t) =>
      refine ⟨formatTime (if l = "" then rfc3339 else l) t, rfl, ?_⟩
      have hp : parseTime (if l = "" then rfc3339 else l)
          (formatTime (if l = "" then rfc3339 else l) t) = .ok t := by
        have hv : ValOkL l (.plain .time) (.base (.vtime t)) =
            if l = "" then TimeOk t else parseTime l (formatTime l t) = .ok t := rfl
        rw [hv] at h
        by_cases hl : l = ""
        · rw [if_pos hl] at h ⊢
          exact parseTime_formatTime_rfc3339 h
        · rw [if_neg hl] at h ⊢
          exact h
      simp [convertField, convertBase, hp, Except.map]

/-- A kind whose switch case skips the token converts every token to the
very error that case returns. -/
theorem noTokenError_convert {i : Nat} {k : FKind} {e : GoError} (l tok : String)
    (h : noTokenError i k = some e) : convertField i l k tok = .error e := by
  match k with
  | .plain (.otherStruct s) =>
      have hs : noTokenError i (FKind.plain (BKind.otherStruct s))
          = some (.unknownStructField i) := rfl
      rw [hs] at h
      injection h with h
      rw [← h]
      rfl
  | .plain (.otherKind n) =>
      have hs : noTokenError i (FKind.plain (BKind.otherKind n))
          = some (.unsupportedType n i) := rfl
      rw [hs] at h
      injection h with h
      rw [← h]
      rfl
  | .plain .str => exact absurd h (by simp [noTokenError])
  | .plain .i64 => exact absurd h (by simp [noTokenError])
  | .plain .f64 => exact absurd h (by simp [noTokenError])
  | .plain .bool => exact absurd h (by simp [noTokenError])
  | .plain .time => exact absurd h (by simp [noTokenError])
  | .ptrTo b => exact absurd h (by simp [noTokenError])

/-- A successful conversion implies the field's case reads the token. -/
theorem noTokenError_of_ok {i : Nat} {l : String} {k : FKind} {tok : String} {v : FVal}
    (h : convertField i l k tok = .ok v) : noTokenError i k = none := by
  match k with
  | .plain (.otherStruct s) =>
      exact absurd h (by simp [convertField, convertBase, Except.map])
  | .plain (.otherKind n) =>
      exact absurd h (by simp [convertField, convertBase, Except.map])
  | .plain .str => rfl
  | .plain .i64 => rfl
  | .plain .f64 => rfl
  | .plain .bool => rfl
  | .plain .time => rfl
  | .ptrTo b => rfl

/-- Row-level round trip from an arbitrary field position: encoding a
representable record tail yields tokens that decode in place back to the
same values. -/
theorem decode_encode_from (layout : Nat → String) :
    ∀ (fs : List FieldTy) (vs : List FVal) (i : Nat) (pre : List String) (rec : Rec),
      pre.length = i → rec.length = i + fs.length →
      RecOkFromL layout fs vs i →
      ∃ toks, getStringsFrom layout vs i = (toks, none)
        ∧ setValueFrom layout (pre ++ toks) fs i rec = (rec.take i ++ vs, .okR) := by
  intro fs
  induction fs with
  | nil =>
      intro vs i pre rec hpre hrec hok
      match vs with
      | [] =>
        refine ⟨[], rfl, ?_⟩
        have hlen0 : rec.length = i := by simpa using hrec
        rw [List.append_nil]
        show (rec, GoRes.okR) = (rec.take i ++ ([] : List FVal), GoRes.okR)
        rw [List.append_nil, ← hlen0, List.take_length]
      | v :: vs => exact absurd hok (by simp [RecOkFromL])
  | cons f fs ih =>
      intro vs i pre rec hpre hrec hok
      match vs with
      | [] => exact absurd hok (by simp [RecOkFromL])
      | v :: vs =>
        obtain ⟨hv, hrest⟩ := hok
        obtain ⟨tok, htokE, htokC⟩ := field_roundtrip i hv
        have hlen1 : (pre ++ [tok]).length = i + 1 := by simp [hpre]
        have hlen2 : (rec.set i v).length = (i + 1) + fs.length := by
          rw [List.length_set]
          simp at hrec
          omega
        obtain ⟨toks, hG, hS⟩ := ih vs (i + 1) (pre ++ [tok]) (rec.set i v) hlen1 hlen2 hrest
        refine ⟨tok :: toks, ?_, ?_⟩
        · rw [getStringsFrom, htokE, hG]
        · have hassoc : (pre ++ [tok]) ++ toks = pre ++ tok :: toks := by simp
          rw [hassoc] at hS
          have hget : (pre ++ tok :: toks).get? i = some tok := by
            rw [← hpre]
            exact get?_append_len pre tok toks
          rw [setValueFrom, noTokenError_of_ok htokC]
          dsimp only
          rw [hget]
          dsimp only
          rw [htokC]
          dsimp only
          rw [hS]
          have hi : i < rec.length := by
            simp at hrec
            omega
          rw [take_set_succ rec i v hi]
          simp

/-! ### Behaviour of the row loops -/

theorem unmarshalRows_decodes (layout : Nat → String) (ty : RecTy) :
    ∀ (rows : List (List String)) (recs : List Rec) (slice : List Rec),
      DecodesTo layout ty rows recs →
      unmarshalRows layout ty rows slice = (slice ++ recs, .okR) := by
  intro rows
  induction rows with
  | nil =>
      intro recs slice h
      match recs with
      | [] => simp [unmarshalRows]
      | r :: rs => exact absurd h (by simp [DecodesTo])
  | cons row rest ih =>
      intro recs slice h
      match recs with
      | [] => exact absurd h (by simp [DecodesTo])
      | r :: rs =>
        obtain ⟨hrow, hrest⟩ := h
        rw [unmarshalRows, hrow]
        dsimp only
        rw [ih rs (slice ++ [r]) hrest]
        simp

theorem unmarshalRows_append (layout : Nat → String) (ty : RecTy) :
    ∀ (good : List (List String)) (recs : List Rec) (more : List (List String)) (slice : List Rec),
      DecodesTo layout ty good recs →
      unmarshalRows layout ty (good ++ more) slice
        = unmarshalRows layout ty more (slice ++ recs) := by
  intro good
  induction good with
  | nil =>
      intro recs more slice h
      match recs with
      | [] => simp
      | r :: rs => exact absurd h (by simp [DecodesTo])
  | cons row rest ih =>
      intro recs more slice h
      match recs with
      | [] => exact absurd h (by simp [DecodesTo])
      | r :: rs =>
        obtain ⟨hrow, hrest⟩ := h
        rw [List.cons_append, unmarshalRows, hrow]
        dsimp only
        rw [ih rs more (slice ++ [r]) hrest]
        simp

theorem unmarshalRows_fail (layout : Nat → String) (ty : RecTy)
    (row : List String) (rest : List (List String)) (slice : List Rec)
    {r : Rec} {e : GoError} (h : setValue layout row ty (zeroRec ty) = (r, .errR e)) :
    unmarshalRows layout ty (row :: rest) slice = (slice, .errR e) := by
  rw [unmarshalRows, h]

theorem unmarshalRows_frame (layout : Nat → String) (ty : RecTy) :
    ∀ (rows : List (List String)) (slice : List Rec),
      ∃ new res, unmarshalRows layout ty rows slice = (slice ++ new, res) := by
  intro rows
  induction rows with
  | nil =>
      intro slice
      exact ⟨[], .okR, by simp [unmarshalRows]⟩
  | cons row rest ih =>
      intro slice
      rw [unmarshalRows]
      match hsv : setValue layout row ty (zeroRec ty) with
      | (r, .okR) =>
          obtain ⟨new, res, hres⟩ := ih (slice ++ [r])
          exact ⟨r :: new, res, by dsimp only; rw [hres]; simp⟩
      | (r, .errR e) => exact ⟨[], .errR e, by simp⟩
      | (r, .faultR m) => exact ⟨[], .faultR m, by simp⟩

theorem setValueFrom_not_ok (layout : Nat → String) (values : List String) :
    ∀ (fs : List FieldTy) (i : Nat) (rec : Rec),
      i ≤ values.length → values.length < i + fs.length →
      (setValueFrom layout values fs i rec).2 ≠ .okR := by
  intro fs
  induction fs with
  | nil =>
      intro i rec hle hlt
      simp at hlt
      omega
  | cons f fs ih =>
      intro i rec hle hlt
      rw [setValueFrom]
      match hnt : noTokenError i f.kind with
      | some e => simp
      | none =>
          dsimp only
          match hget : values.get? i with
          | none => simp
          | some tok =>
              dsimp only
              have hi : i < values.length := by
                by_contra hc
                rw [List.get?_eq_none.mpr (by omega)] at hget
                exact absurd hget (by simp)
              match hcv : convertField i (layout i) f.kind tok with
              | .error e => simp
              | .ok v =>
                  dsimp only
                  refine ih (i + 1) (rec.set i v) (by omega) ?_
                  simp at hlt
                  omega

theorem setValueFrom_fault (layout : Nat → String) (values : List String) :
    ∀ (fs : List FieldTy) (i : Nat) (rec : Rec),
      i ≤ values.length → values.length < i + fs.length →
      (∀ j fld tok, fs.get? j = some fld → values.get? (i + j) = some tok →
        ∃ v, convertField (i + j) (layout (i + j)) fld.kind tok = .ok v) →
      (∀ fld, fs.get? (values.length - i) = some fld →
        noTokenError values.length fld.kind = none) →
      (setValueFrom layout values fs i rec).2
        = .faultR ("runtime error: index out of range") := by
  intro fs
  induction fs with
  | nil =>
      intro i rec hle hlt
      simp at hlt
      omega
  | cons f fs ih =>
      intro i rec hle hlt hconv hnt
      rw [setValueFrom]
      by_cases hi : i < values.length
      · obtain ⟨tok, hget⟩ : ∃ tok, values.get? i = some tok := by
          match hg : values.get? i with
          | some t => exact ⟨t, rfl⟩
          | none =>
              rw [List.get?_eq_none] at hg
              omega
        obtain ⟨v, hv⟩ := hconv 0 f tok rfl (by simpa using hget)
        rw [Nat.add_zero] at hv
        rw [noTokenError_of_ok hv]
        dsimp only
        rw [hget]
        dsimp only
        rw [hv]
        dsimp only
        refine ih (i + 1) (rec.set i v) (by omega) (by simp at hlt; omega) ?_ ?_
        · intro j fld tok2 hf ht
          have heq : i + (j + 1) = i + 1 + j := by omega
          have hx := hconv (j + 1) fld tok2 (by simpa using hf) (by rw [heq]; exact ht)
          rw [heq] at hx
          exact hx
        · intro fld hf
          apply hnt fld
          have hk : values.length - i = (values.length - (i + 1)) + 1 := by omega
          rw [hk]
          exact hf
      · have hn : noTokenError i f.kind = none := by
          have hieq : i = values.length := by omega
          rw [hieq]
          apply hnt f
          have h0 : values.length - i = 0 := by omega
          rw [h0]
          rfl
        rw [hn]
        dsimp only
        rw [List.get?_eq_none.mpr (by omega)]

/-! ### Shape of the standard-library conversion errors: no field index -/

theorem parseIntDigits_err {s : String} {neg : Bool} {ds : List Char} {e : GoError}
    (h : parseIntDigits s neg ds = .error e) : fieldPos e = none := by
  rw [parseIntDigits.eq_def] at h
  repeat' split at h
  all_goals first
    | (injection h with h1; subst h1; rfl)
    | exact absurd h (by simp)

theorem parseInt64_err {s : String} {e : GoError} (h : parseInt64 s = .error e) :
    fieldPos e = none := by
  rw [parseInt64.eq_def] at h
  repeat' split at h
  all_goals first
    | (injection h with h1; subst h1; rfl)
    | exact parseIntDigits_err h

theorem parseFloatDigits_err {s : String} {neg : Bool} {ds : List Char} {e : GoError}
    (h : parseFloatDigits s neg ds = .error e) : fieldPos e = none := by
  rw [parseFloatDigits.eq_def] at h
  dsimp only at h
  repeat' split at h
  all_goals first
    | (injection h with h1; subst h1; rfl)
    | exact absurd h (by simp)

theorem parseFloat64_err {s : String} {e : GoError} (h : parseFloat64 s = .error e) :
    fieldPos e = none := by
  rw [parseFloat64.eq_def] at h
  repeat' split at h
  all_goals first
    | (injection h with h1; subst h1; rfl)
    | exact parseFloatDigits_err h

theorem parseBool_err {s : String} {e : GoError} (h : parseBool s = .error e) :
    fieldPos e = none := by
  rw [parseBool] at h
  repeat' split at h
  all_goals first
    | (injection h with h1; subst h1; rfl)
    | exact absurd h (by simp)

theorem parseTime_err {layout value : String} {e : GoError}
    (h : parseTime layout value = .error e) : fieldPos e = none := by
  rw [parseTime.eq_def] at h
  repeat' split at h
  all_goals first
    | (injection h with h1; subst h1; rfl)
    | exact absurd h (by simp)

/-! ### The claims -/

/-- Claim C1 (amended).  Encode-then-decode is the identity on representable
record values of supported record types: getStrings emits a row that
setValue decodes back into exactly the original record, provided each
field's value is representable under its active format — text and boolean
values always, integers within int64, reals with a finite decimal expansion,
and timestamp values that their active layout (the tag when present, else
RFC3339) recovers, a condition every RFC3339-representable value of a
default-format field meets but which lossy overrides such as the day-of-month
pattern violate. -/
theorem claim1_roundtrip (ty : RecTy) (x : Rec) (h : RecOk ty x) :
    setValue (setLayout ty) (getStrings (setLayout ty) x).1 ty (zeroRec ty) = (x, .okR) := by
  obtain ⟨toks, hG, hS⟩ := decode_encode_from (setLayout ty) ty x 0 [] (zeroRec ty) rfl
    (by simp [zeroRec]) h
  have h1 : (getStrings (setLayout ty) x).1 = toks := by rw [getStrings, hG]
  rw [h1, setValue]
  have h2 : ([] : List String) ++ toks = toks := rfl
  rw [← h2, hS]
  simp

/-- Witness for claim C1: a record with text, integer, real, boolean, a
default-format timestamp and an override timestamp whose value the override
recovers. -/
theorem claim1_roundtrip_witness :
    RecOk wTy1 wX1
      ∧ setValue (setLayout wTy1) (getStrings (setLayout wTy1) wX1).1 wTy1 (zeroRec wTy1)
        = (wX1, .okR) :=
  ⟨by decide, claim1_roundtrip wTy1 wX1 (by decide)⟩

/-- Counterexample to claim C1 as stated: a timestamp field with the
day-of-month override drops the year, so the 1776 date re-enters as the
year-zero date and the round trip is not the identity. -/
theorem claim1_counterexample :
    setValue (setLayout ceTy1) (getStrings (setLayout ceTy1) ceX1).1 ceTy1 (zeroRec ceTy1)
        = ([.base (.vtime ⟨0, 7, 4, 0, 0, 0, 0⟩)], .okR)
      ∧ setValue (setLayout ceTy1) (getStrings (setLayout ceTy1) ceX1).1 ceTy1 (zeroRec ceTy1)
        ≠ (ceX1, .okR) := by
  constructor
  · decide
  · decide

/-- Claim C2.  Nullable (pointer) fields: an empty token decodes to the
absent value with no conversion attempted and no error; a non-empty token is
decoded by the wrapped kind's parse rule and on success stored as a present
value; an absent field encodes to an empty token. -/
theorem claim2_nullable :
    (∀ (i : Nat) (l : String) (b : BKind), convertField i l (.ptrTo b) "" = .ok (.ptr none))
    ∧ (∀ (i : Nat) (l : String) (b : BKind) (tok : String) (w : BVal), tok ≠ "" →
        convertBase i l b tok = .ok w → convertField i l (.ptrTo b) tok = .ok (.ptr (some w)))
    ∧ (∀ (i : Nat) (l : String), encodeVal i l (.ptr none) = .ok "") := by
  refine ⟨fun i l b => rfl, fun i l b tok w hne hconv => ?_, fun i l => rfl⟩
  rw [convertField, convertPtr, if_neg hne, hconv]
  rfl

/-- Witness for claim C2 at a concrete nullable integer field. -/
theorem claim2_nullable_witness :
    convertField 0 "" (.ptrTo .i64) "" = .ok (.ptr none)
      ∧ convertField 0 "" (.ptrTo .i64) "5" = .ok (.ptr (some (.vint 5)))
      ∧ encodeVal 0 "" (.ptr none) = .ok "" :=
  ⟨claim2_nullable.1 0 "" .i64,
   claim2_nullable.2.1 0 "" .i64 "5" (.vint 5) (by decide) (by decide),
   claim2_nullable.2.2 0 ""⟩

/-- Claim C3 (amended).  Unmarshal returns ErrNotPointer on a non-pointer,
ErrNotSlice on a pointer to a non-slice, and ErrNotSlice on a pointer to a
slice whose element type is not a struct — including, contrary to the claim
as stated, a slice of pointers to structs, which is rejected identically;
UnmarshalOne returns ErrNotPointer on a non-pointer and ErrNotStruct on a
pointer to a non-struct.  All checks are independent of the reader's rows
(no row is pulled) and return the destination unchanged. -/
theorem claim3_validation :
    (∀ (d : String) (rows : List (List String)),
        Unmarshal rows (.nonPtr d) = (.nonPtr d, .errR .errNotPointer))
    ∧ (∀ (d : String) (rows : List (List String)),
        Unmarshal rows (.ptrToOther d) = (.ptrToOther d, .errR .errNotSlice))
    ∧ (∀ (ty : RecTy) (r : Rec) (rows : List (List String)),
        Unmarshal rows (.ptrToStruct ty r) = (.ptrToStruct ty r, .errR .errNotSlice))
    ∧ (∀ (n : String) (rows : List (List String)),
        Unmarshal rows (.ptrToSliceOfOther n) = (.ptrToSliceOfOther n, .errR .errNotSlice))
    ∧ (∀ (ty : RecTy) (es : List Rec) (rows : List (List String)),
        Unmarshal rows (.ptrToPtrSlice ty es) = (.ptrToPtrSlice ty es, .errR .errNotSlice))
    ∧ (∀ (d : String) (rows : List (List String)),
        UnmarshalOne rows (.nonPtr d) = (.nonPtr d, .errR .errNotPointer))
    ∧ (∀ (d : String) (rows : List (List String)),
        UnmarshalOne rows (.ptrToOther d) = (.ptrToOther d, .errR .errNotStruct)) :=
  ⟨fun _ _ => rfl, fun _ _ => rfl, fun _ _ _ => rfl, fun _ _ => rfl,
   fun _ _ _ => rfl, fun _ _ => rfl, fun _ _ => rfl⟩

/-- Counterexample to claim C3 as stated: a pointer to a slice of pointers
to structs is not accepted; Unmarshal rejects it with ErrNotSlice and leaves
the destination untouched. -/
theorem claim3_counterexample :
    Unmarshal [["x", "1"]] (.ptrToPtrSlice pairTy [])
      = (.ptrToPtrSlice pairTy [], .errR .errNotSlice) := by
  decide

/-- Claim C4 (amended).  Marshal validates pointer-ness (ErrNotPointer) and
slice-ness (ErrNotSlice) exactly as Unmarshal, before any row is encoded or
pushed; but unlike Unmarshal it never checks that the element type is a
struct: for a pointer to a slice of non-struct elements (or of pointers to
structs) it panics at layout resolution, where setLayout calls NumField on
the non-struct element type — before the element loop runs, hence for every
such slice, an empty one included — instead of returning ErrNotSlice, with
no row pushed. -/
theorem claim4_marshal_validation :
    (∀ d : String, Marshal (.nonPtr d) = ([], .errR .errNotPointer))
    ∧ (∀ d : String, Marshal (.ptrToOther d) = ([], .errR .errNotSlice))
    ∧ (∀ (ty : RecTy) (r : Rec), Marshal (.ptrToStruct ty r) = ([], .errR .errNotSlice))
    ∧ (∀ n : String,
        Marshal (.ptrToSliceOfOther n) = ([], .faultR ("reflect: NumField of non-struct type")))
    ∧ (∀ (ty : RecTy) (es : List Rec),
        Marshal (.ptrToPtrSlice ty es) = ([], .faultR ("reflect: NumField of non-struct type"))) :=
  ⟨fun _ => rfl, fun _ => rfl, fun _ _ => rfl, fun _ => rfl, fun _ _ => rfl⟩

/-- Counterexample to claim C4 as stated: for a pointer to a slice of int64
the call does not return ErrNotSlice — it faults in setLayout's NumField at
layout resolution, before the element loop, so even an empty slice of
pointers faults the same way; no row is pushed. -/
theorem claim4_counterexample :
    Marshal (.ptrToSliceOfOther ("int64")) ≠ ([], .errR .errNotSlice)
      ∧ Marshal (.ptrToSliceOfOther ("int64"))
        = ([], .faultR ("reflect: NumField of non-struct type"))
      ∧ Marshal (.ptrToPtrSlice pairTy [])
        = ([], .faultR ("reflect: NumField of non-struct type")) := by
  refine ⟨by decide, by decide, by decide⟩

/-- Claim C5 (amended).  A row with fewer tokens than the destination type
has fields never decodes successfully, and the loop reads no token beyond
the row.  When every token the row does provide converts and the field at
the first missing index is of a kind whose switch case reads the token, the
result is exactly the out-of-range fault of the values[i] access; a field
of unsupported kind at that index instead returns its fmt.Errorf type
error, whose case returns before evaluating values[i]. -/
theorem claim5_short_row (layout : Nat → String) (values : List String) (ty : RecTy) (rec : Rec)
    (h : values.length < ty.length) :
    (setValue layout values ty rec).2 ≠ .okR
    ∧ ((∀ j fld tok, ty.get? j = some fld → values.get? j = some tok →
          ∃ v, convertField j (layout j) fld.kind tok = .ok v) →
       (∀ fld, ty.get? values.length = some fld →
          noTokenError values.length fld.kind = none) →
        (setValue layout values ty rec).2 = .faultR ("runtime error: index out of range")) := by
  constructor
  · exact setValueFrom_not_ok layout values ty 0 rec (by omega) (by omega)
  · intro hconv hnt
    refine setValueFrom_fault layout values ty 0 rec (by omega) (by omega) ?_ ?_
    · intro j fld tok hf ht
      have hx := hconv j fld tok hf (by simpa using ht)
      simpa using hx
    · intro fld hf
      apply hnt fld
      simpa using hf

/-- Witness for claim C5: a two-field record of supported kinds against a
one-token row, whose only token converts, faults on the missing second
token. -/
theorem claim5_short_row_witness :
    (setValue (setLayout pairTy) ["5"] pairTy (zeroRec pairTy)).2 ≠ .okR
    ∧ (setValue (setLayout pairTy) ["5"] pairTy (zeroRec pairTy)).2
        = .faultR ("runtime error: index out of range") := by
  have hc := claim5_short_row (setLayout pairTy) ["5"] pairTy (zeroRec pairTy) (by decide)
  refine ⟨hc.1, hc.2 ?_ ?_⟩
  · intro j fld tok hf ht
    match j with
    | 0 =>
        refine ⟨.base (.vstr tok), ?_⟩
        have hfld : fld = ⟨.plain .str, ""⟩ := by
          have h0 : pairTy.get? 0 = some ⟨.plain .str, ""⟩ := rfl
          rw [h0] at hf
          injection hf with h1
          exact h1.symm
        rw [hfld]
        rfl
    | 1 =>
        have h1 : (["5"] : List String).get? 1 = none := rfl
        rw [h1] at ht
        exact absurd ht (by simp)
    | n + 2 =>
        have h2 : pairTy.get? (n + 2) = none := rfl
        rw [h2] at hf
        exact absurd hf (by simp)
  · intro fld hf
    have hl : pairTy.get? (["5"] : List String).length = some (⟨.plain .i64, ""⟩ : FieldTy) := rfl
    rw [hl] at hf
    injection hf with hf
    rw [← hf]
    rfl

/-- Counterexample to claim C5 as stated: against a one-token row, a
two-field type whose missing second field has an unsupported kind fails with
that field's unsupported-type error — its switch case returns before
evaluating values[i] — not with a bounds error. -/
theorem claim5_counterexample :
    (["a"] : List String).length < shortMapTy.length
    ∧ setValue (setLayout shortMapTy) ["a"] shortMapTy (zeroRec shortMapTy)
        = ([.base (.vstr "a"), .base (.vother false "map")],
           .errR (.unsupportedType ("map") 1))
    ∧ (setValue (setLayout shortMapTy) ["a"] shortMapTy (zeroRec shortMapTy)).2
        ≠ .faultR ("runtime error: index out of range") := by
  refine ⟨by decide, by decide, by decide⟩

/-- Claim C6 (amended).  A token that fails to parse aborts the row at that
field at once: setValue returns the underlying strconv or time error
unchanged, with the remaining fields untouched and the result independent of
the later tokens; but that error does not identify the offending field's
position — the standard-library conversion errors carry no field index (the
source marks wrapping them with the field as a TODO). -/
theorem claim6_conversion_error :
    (∀ (layout : Nat → String) (values : List String) (fld : FieldTy) (rest : List FieldTy)
        (i : Nat) (rec : Rec) (tok : String) (e : GoError),
        values.get? i = some tok →
        convertField i (layout i) fld.kind tok = .error e →
        setValueFrom layout values (fld :: rest) i rec = (rec, .errR e))
    ∧ (∀ (s : String) (e : GoError), parseInt64 s = .error e → fieldPos e = none)
    ∧ (∀ (s : String) (e : GoError), parseFloat64 s = .error e → fieldPos e = none)
    ∧ (∀ (s : String) (e : GoError), parseBool s = .error e → fieldPos e = none)
    ∧ (∀ (l s : String) (e : GoError), parseTime l s = .error e → fieldPos e = none) := by
  refine ⟨?_, fun _ _ => parseInt64_err, fun _ _ => parseFloat64_err, fun _ _ => parseBool_err,
    fun _ _ _ => parseTime_err⟩
  intro layout values fld rest i rec tok e hget hcv
  rw [setValueFrom]
  match hnt : noTokenError i fld.kind with
  | some e2 =>
      dsimp only
      have hce := noTokenError_convert (layout i) tok hnt
      rw [hcv] at hce
      injection hce with hce
      rw [hce]
  | none =>
      dsimp only
      rw [hget]
      dsimp only
      rw [hcv]

/-- Witness for claim C6: an unparsable integer token aborts the row with
the raw strconv error, which names no field. -/
theorem claim6_conversion_error_witness :
    setValueFrom (setLayout intPairTy) ["abc", "7"] intPairTy 0 (zeroRec intPairTy)
        = (zeroRec intPairTy, .errR (.numError ("ParseInt") ("abc") ("invalid syntax")))
      ∧ fieldPos (GoError.numError ("ParseInt") ("abc") ("invalid syntax")) = none := by
  refine ⟨?_, claim6_conversion_error.2.1 ("abc") _ (by decide)⟩
  exact claim6_conversion_error.1 (setLayout intPairTy) ["abc", "7"] ⟨.plain .i64, ""⟩
    [⟨.plain .i64, ""⟩] 0 (zeroRec intPairTy) ("abc") _ rfl (by decide)

/-- Counterexample to claim C6 as stated: the same error value results
whether the unparsable token sits at field 0 or at field 1, so the returned
conversion error cannot identify the offending field's position, and indeed
names none. -/
theorem claim6_counterexample :
    (setValue (setLayout intPairTy) ["abc", "7"] intPairTy (zeroRec intPairTy)).2
        = .errR (.numError ("ParseInt") ("abc") ("invalid syntax"))
    ∧ (setValue (setLayout pairTy) ["x", "abc"] pairTy (zeroRec pairTy)).2
        = .errR (.numError ("ParseInt") ("abc") ("invalid syntax"))
    ∧ fieldPos (GoError.numError ("ParseInt") ("abc") ("invalid syntax")) = none := by
  refine ⟨by decide, by decide, rfl⟩

/-- Claim C7 (amended).  Unmarshal never publishes a failed record: the
instance decoded from a failing row is discarded and the slice returned as
it stood; UnmarshalOne however decodes in place, so when a later field
fails, the fields already converted remain set in the caller's
destination. -/
theorem claim7_partial :
    (∀ (ty : RecTy) (row : List String) (rest : List (List String)) (slice : List Rec)
        (r : Rec) (e : GoError),
        setValue (setLayout ty) row ty (zeroRec ty) = (r, .errR e) →
        Unmarshal (row :: rest) (.ptrToSlice ty slice) = (.ptrToSlice ty slice, .errR e))
    ∧ (∀ (f0 f1 : FieldTy) (rest2 : List FieldTy) (r : Rec) (rows : List (List String))
        (t0 t1 : String) (ts : List String) (v0 : FVal) (e : GoError),
        convertField 0 (setLayout (f0 :: f1 :: rest2) 0) f0.kind t0 = .ok v0 →
        convertField 1 (setLayout (f0 :: f1 :: rest2) 1) f1.kind t1 = .error e →
        UnmarshalOne ((t0 :: t1 :: ts) :: rows) (.ptrToStruct (f0 :: f1 :: rest2) r)
          = (.ptrToStruct (f0 :: f1 :: rest2) (r.set 0 v0), .errR e)) := by
  constructor
  · intro ty row rest slice r e h
    rw [Unmarshal]
    rw [unmarshalRows_fail (setLayout ty) ty row rest slice h]
  · intro f0 f1 rest2 r rows t0 t1 ts v0 e h0 h1
    have hsv : setValue (setLayout (f0 :: f1 :: rest2)) (t0 :: t1 :: ts) (f0 :: f1 :: rest2) r
        = (r.set 0 v0, .errR e) := by
      rw [setValue, setValueFrom, noTokenError_of_ok h0]
      dsimp only
      rw [show (t0 :: t1 :: ts).get? 0 = some t0 from rfl]
      dsimp only
      rw [h0]
      dsimp only
      rw [setValueFrom]
      simp only [Nat.zero_add]
      match hnt : noTokenError 1 f1.kind with
      | some e2 =>
          dsimp only
          have hce := noTokenError_convert (setLayout (f0 :: f1 :: rest2) 1) t1 hnt
          rw [h1] at hce
          injection hce with hce
          rw [hce]
      | none =>
          dsimp only
          rw [show (t0 :: t1 :: ts).get? 1 = some t1 from rfl]
          dsimp only
          rw [h1]
    rw [UnmarshalOne]
    rw [hsv]

/-- Witness for claim C7: a failing second field leaves the Unmarshal slice
untouched but leaves UnmarshalOne's destination with its first field set. -/
theorem claim7_partial_witness :
    Unmarshal [["x", "abc"]] (.ptrToSlice pairTy [])
        = (.ptrToSlice pairTy [], .errR (.numError ("ParseInt") ("abc") ("invalid syntax")))
    ∧ UnmarshalOne [["x", "abc"]] (.ptrToStruct pairTy (zeroRec pairTy))
        = (.ptrToStruct pairTy ((zeroRec pairTy).set 0 (.base (.vstr "x"))),
           .errR (.numError ("ParseInt") ("abc") ("invalid syntax"))) := by
  constructor
  · exact claim7_partial.1 pairTy ["x", "abc"] [] []
      [.base (.vstr "x"), .base (.vint 0)] _ (by decide)
  · exact claim7_partial.2 ⟨.plain .str, ""⟩ ⟨.plain .i64, ""⟩ [] (zeroRec pairTy) []
      ("x") ("abc") [] (.base (.vstr "x")) _ (by decide) (by decide)

/-- Counterexample to claim C7 as stated: after a failed row, UnmarshalOne's
destination is not free of side effects — its first field now holds the
decoded text. -/
theorem claim7_counterexample :
    (UnmarshalOne [["x", "abc"]] (.ptrToStruct pairTy (zeroRec pairTy))).1
        = .ptrToStruct pairTy [.base (.vstr "x"), .base (.vint 0)]
    ∧ (UnmarshalOne [["x", "abc"]] (.ptrToStruct pairTy (zeroRec pairTy))).1
        ≠ .ptrToStruct pairTy (zeroRec pairTy)
    ∧ (UnmarshalOne [["x", "abc"]] (.ptrToStruct pairTy (zeroRec pairTy))).2
        = .errR (.numError ("ParseInt") ("abc") ("invalid syntax")) := by
  refine ⟨by decide, by decide, by decide⟩

/-- Claim C8.  Unmarshal appends one decoded record per input row in arrival
order; end of input returns success; and when a later row fails, the records
decoded from the earlier rows remain appended, with the error surfaced and
no rollback. -/
theorem claim8_order :
    (∀ (ty : RecTy) (rows : List (List String)) (recs : List Rec) (slice : List Rec),
        DecodesTo (setLayout ty) ty rows recs →
        Unmarshal rows (.ptrToSlice ty slice) = (.ptrToSlice ty (slice ++ recs), .okR))
    ∧ (∀ (ty : RecTy) (good : List (List String)) (recs : List Rec)
        (row : List String) (rest : List (List String)) (slice : List Rec) (r : Rec) (e : GoError),
        DecodesTo (setLayout ty) ty good recs →
        setValue (setLayout ty) row ty (zeroRec ty) = (r, .errR e) →
        Unmarshal (good ++ row :: rest) (.ptrToSlice ty slice)
          = (.ptrToSlice ty (slice ++ recs), .errR e)) := by
  constructor
  · intro ty rows recs slice h
    rw [Unmarshal]
    rw [unmarshalRows_decodes (setLayout ty) ty rows recs slice h]
  · intro ty good recs row rest slice r e hgood hbad
    rw [Unmarshal]
    rw [unmarshalRows_append (setLayout ty) ty good recs (row :: rest) slice hgood,
      unmarshalRows_fail (setLayout ty) ty row rest (slice ++ recs) hbad]

/-- Witness for claim C8: two rows decode to two records in input order, and
with a failing second row the first record remains appended. -/
theorem claim8_order_witness :
    Unmarshal [["a", "1"], ["b", "2"]] (.ptrToSlice pairTy [])
        = (.ptrToSlice pairTy
            [[.base (.vstr "a"), .base (.vint 1)], [.base (.vstr "b"), .base (.vint 2)]], .okR)
    ∧ Unmarshal [["a", "1"], ["b", "x"]] (.ptrToSlice pairTy [])
        = (.ptrToSlice pairTy [[.base (.vstr "a"), .base (.vint 1)]],
           .errR (.numError ("ParseInt") ("x") ("invalid syntax"))) := by
  constructor
  · have h := claim8_order.1 pairTy [["a", "1"], ["b", "2"]]
      [[.base (.vstr "a"), .base (.vint 1)], [.base (.vstr "b"), .base (.vint 2)]] []
      ⟨by decide, by decide, trivial⟩
    simpa using h
  · have h := claim8_order.2 pairTy [["a", "1"]] [[.base (.vstr "a"), .base (.vint 1)]]
      ["b", "x"] [] [] [.base (.vstr "b"), .base (.vint 0)]
      (.numError ("ParseInt") ("x") ("invalid syntax"))
      ⟨by decide, trivial⟩ (by decide)
    simpa using h

/-- Claim C9 (amended).  Timestamp fields use the csv tag as the layout for
both decoding and encoding when one is present, and RFC3339 otherwise; under
the day-of-month override the token Jul 4 decodes to July 4 of year zero,
but re-encoding that date emits Jul  4 with the day space-padded to width
two by the underscore directive, not the original literal. -/
theorem claim9_layout :
    (∀ (i : Nat) (l : String) (tok : String),
        convertField i l (.plain .time) tok
          = (parseTime (if l = "" then rfc3339 else l) tok).map (fun t => .base (.vtime t)))
    ∧ (∀ (i : Nat) (l : String) (t : GoTime),
        encodeVal i l (.base (.vtime t))
          = .ok (formatTime (if l = "" then rfc3339 else l) t))
    ∧ setValue (setLayout holidayTy) ["Fourth of July", "Jul 4"] holidayTy (zeroRec holidayTy)
        = ([.base (.vstr "Fourth of July"), .base (.vtime ⟨0, 7, 4, 0, 0, 0, 0⟩)], .okR)
    ∧ getStrings (setLayout holidayTy)
          [.base (.vstr "Fourth of July"), .base (.vtime ⟨0, 7, 4, 0, 0, 0, 0⟩)]
        = (["Fourth of July", "Jul  4"], none) := by
  refine ⟨?_, fun i l t => rfl, by decide, by decide⟩
  intro i l tok
  rw [convertField, convertBase]
  cases h : parseTime (if l = "" then rfc3339 else l) tok <;> simp [Except.map, h]

/-- Counterexample to claim C9 as stated: re-encoding July 4 of year zero
under the day-of-month override yields Jul  4 (padded day), not the literal
Jul 4. -/
theorem claim9_counterexample :
    (getStrings (setLayout holidayTy)
        [.base (.vstr "Fourth of July"), .base (.vtime ⟨0, 7, 4, 0, 0, 0, 0⟩)]).1
        = ["Fourth of July", "Jul  4"]
    ∧ (getStrings (setLayout holidayTy)
        [.base (.vstr "Fourth of July"), .base (.vtime ⟨0, 7, 4, 0, 0, 0, 0⟩)]).1
        ≠ ["Fourth of July", "Jul 4"] := by
  refine ⟨by decide, by decide⟩

/-- Claim C10.  Unmarshal only ever appends: whatever the rows hold, the
destination slice's pre-existing elements survive unchanged in their
original positions, with the newly decoded records after them; the slice is
never cleared, truncated or overwritten. -/
theorem claim10_frame (ty : RecTy) (rows : List (List String)) (slice : List Rec) :
    ∃ new res, Unmarshal rows (.ptrToSlice ty slice) = (.ptrToSlice ty (slice ++ new), res) := by
  obtain ⟨new, res, h⟩ := unmarshalRows_frame (setLayout ty) ty rows slice
  refine ⟨new, res, ?_⟩
  rw [Unmarshal]
  rw [h]

end Csv2
